import Mathlib

/-!
Verification of the banago generation-history record store.

Shallow embedding of the Go sources:
  * `internal/history/entry.go`, `internal/history/edit.go` (record model),
  * `internal/generation/service.go` (orchestration `Run` / `Edit`),
  * the validator (`validateAspectRatio` / `validateImageSize` /
    `validateInputImages` / `validateContext`),
  * `internal/gemini/client.go` (`SaveImages`, `NormalizeExt`),
  * the edit-source resolution of the `edit` CLI command.

The filesystem is modelled as a value (`HistoryFs`), YAML marshalling at the
level of key/value documents (`YVal`), and the external `github.com/google/uuid`
UUID-v7 generator as a monotone counter rendered in canonical 8-4-4-4-12 hex
form, following the spec's description of the identifier scheme.
-/

set_option maxHeartbeats 1000000

namespace Banago

/-! ## Characters, hex encoding, and Go string comparison -/

/-- Lower-case hex digit, as produced by the uuid library's `encodeHex`. -/
def hexChar : Nat → Char
  | 0 => '0' | 1 => '1' | 2 => '2' | 3 => '3' | 4 => '4'
  | 5 => '5' | 6 => '6' | 7 => '7' | 8 => '8' | 9 => '9'
  | 10 => 'a' | 11 => 'b' | 12 => 'c' | 13 => 'd' | 14 => 'e' | 15 => 'f'
  | _ => '0'

/-- Is the character a lower-case hex digit (`0-9a-f`)? -/
def isHex (c : Char) : Bool :=
  ('0' ≤ c && c ≤ '9') || ('a' ≤ c && c ≤ 'f')

/-- Fixed-width hex rendering, most significant digit first.  `toHexFixed w n`
only depends on `n % 16 ^ w`. -/
def toHexFixed : Nat → Nat → List Char
  | 0, _ => []
  | w + 1, n => hexChar (n / 16 ^ w % 16) :: toHexFixed w n

/-- Byte-wise (here: character-wise, all characters are ASCII) lexicographic
strict comparison, the semantics of Go's `<` on strings. -/
def listLtChar : List Char → List Char → Bool
  | [], [] => false
  | [], _ :: _ => true
  | _ :: _, [] => false
  | a :: as, b :: bs =>
    if a < b then true else if b < a then false else listLtChar as bs

/-- Go's `s1 < s2` on strings. -/
def strLt (s1 s2 : String) : Bool := listLtChar s1.data s2.data

theorem hexChar_lt_hexChar : ∀ d1 : Nat, d1 < 16 → ∀ d2 : Nat, d2 < 16 →
    d1 < d2 → hexChar d1 < hexChar d2 := by decide

theorem isHex_hexChar (d : Nat) : isHex (hexChar d) = true := by
  unfold hexChar
  split <;> decide

theorem toHexFixed_length (w n : Nat) : (toHexFixed w n).length = w := by
  induction w generalizing n with
  | zero => rfl
  | succ w ih => simp [toHexFixed, ih]

theorem listLtChar_cons_self (c : Char) (l1 l2 : List Char) :
    listLtChar (c :: l1) (c :: l2) = listLtChar l1 l2 := by
  simp [listLtChar]

theorem listLtChar_append_same (p l1 l2 : List Char) :
    listLtChar (p ++ l1) (p ++ l2) = listLtChar l1 l2 := by
  induction p with
  | nil => rfl
  | cons c p ih => simpa [listLtChar_cons_self] using ih

theorem listLtChar_append_of_lt (l1 : List Char) : ∀ l2 t1 t2 : List Char,
    l1.length = l2.length → listLtChar l1 l2 = true →
    listLtChar (l1 ++ t1) (l2 ++ t2) = true := by
  induction l1 with
  | nil =>
    intro l2 t1 t2 hlen h
    cases l2 with
    | nil => simp [listLtChar] at h
    | cons b bs => simp at hlen
  | cons a as ih =>
    intro l2 t1 t2 hlen h
    cases l2 with
    | nil => simp at hlen
    | cons b bs =>
      by_cases hab : a < b
      · simp [listLtChar, hab]
      · by_cases hba : b < a
        · simp [listLtChar, hab, hba] at h
        · have h' : listLtChar as bs = true := by
            simpa [listLtChar, hab, hba] using h
          simpa [listLtChar, hab, hba] using
            ih bs t1 t2 (by simpa using hlen) h'

/-- `toHexFixed` renders only the residue modulo `16 ^ w`. -/
theorem toHexFixed_congr (w : Nat) : ∀ m n : Nat,
    m % 16 ^ w = n % 16 ^ w → toHexFixed w m = toHexFixed w n := by
  induction w with
  | zero => intro m n _; rfl
  | succ w ih =>
    intro m n h
    have hdvd : (16 : Nat) ^ w ∣ 16 ^ (w + 1) := pow_dvd_pow 16 (Nat.le_succ w)
    have htail : m % 16 ^ w = n % 16 ^ w := by
      rw [← Nat.mod_mod_of_dvd m hdvd, ← Nat.mod_mod_of_dvd n hdvd, h]
    have hhead : m / 16 ^ w % 16 = n / 16 ^ w % 16 := by
      rw [← Nat.mod_mul_right_div_self, ← Nat.mod_mul_right_div_self,
        ← pow_succ, h]
    simp [toHexFixed, hhead, ih m n htail]

/-- Strict monotonicity of fixed-width hex rendering. -/
theorem toHexFixed_lt (w : Nat) : ∀ m n : Nat,
    m % 16 ^ w < n % 16 ^ w →
    listLtChar (toHexFixed w m) (toHexFixed w n) = true := by
  induction w with
  | zero => intro m n h; simp [Nat.mod_one] at h
  | succ w ih =>
    intro m n h
    have hdvd : (16 : Nat) ^ w ∣ 16 ^ (w + 1) := pow_dvd_pow 16 (Nat.le_succ w)
    have hpos : 0 < (16 : Nat) ^ w := by positivity
    have hm : m / 16 ^ w % 16 = m % 16 ^ (w + 1) / 16 ^ w := by
      rw [pow_succ, Nat.mod_mul_right_div_self]
    have hn : n / 16 ^ w % 16 = n % 16 ^ (w + 1) / 16 ^ w := by
      rw [pow_succ, Nat.mod_mul_right_div_self]
    rcases Nat.lt_trichotomy (m % 16 ^ (w + 1) / 16 ^ w)
        (n % 16 ^ (w + 1) / 16 ^ w) with hq | hq | hq
    · -- leading digits differ
      have hmm : m % 16 ^ (w + 1) < 16 ^ (w + 1) := Nat.mod_lt _ (by positivity)
      have hnm : n % 16 ^ (w + 1) < 16 ^ (w + 1) := Nat.mod_lt _ (by positivity)
      have hps : (16 : Nat) ^ (w + 1) = 16 ^ w * 16 := pow_succ 16 w
      have hmlt : m % 16 ^ (w + 1) / 16 ^ w < 16 := by
        rw [Nat.div_lt_iff_lt_mul hpos]; omega
      have hnlt : n % 16 ^ (w + 1) / 16 ^ w < 16 := by
        rw [Nat.div_lt_iff_lt_mul hpos]; omega
      have hlt := hexChar_lt_hexChar _ hmlt _ hnlt hq
      simp only [toHexFixed]
      rw [hm, hn]
      simp [listLtChar, hlt]
    · -- leading digits equal: recurse on the tail
      have hmod : m % 16 ^ w < n % 16 ^ w := by
        have h1 : m % 16 ^ w = m % 16 ^ (w + 1) % 16 ^ w :=
          (Nat.mod_mod_of_dvd m hdvd).symm
        have h2 : n % 16 ^ w = n % 16 ^ (w + 1) % 16 ^ w :=
          (Nat.mod_mod_of_dvd n hdvd).symm
        have em : m % 16 ^ (w + 1) =
            16 ^ w * (m % 16 ^ (w + 1) / 16 ^ w) + m % 16 ^ (w + 1) % 16 ^ w :=
          (Nat.div_add_mod _ _).symm
        have en : n % 16 ^ (w + 1) =
            16 ^ w * (m % 16 ^ (w + 1) / 16 ^ w) + n % 16 ^ (w + 1) % 16 ^ w := by
          rw [hq]; exact (Nat.div_add_mod _ _).symm
        rw [h1, h2]
        omega
      simp only [toHexFixed]
      rw [hm, hn, hq, listLtChar_cons_self]
      exact ih m n hmod
    · have : m % 16 ^ (w + 1) / 16 ^ w ≤ n % 16 ^ (w + 1) / 16 ^ w :=
        Nat.div_le_div_right (Nat.le_of_lt h)
      omega

/-! ## UUID v7 identifiers

Modelled from the spec (§4.1): the identifier scheme is external library code
(`github.com/google/uuid`, `uuid.Must(uuid.NewV7())`), not part of this
repository.  Per the spec it "generates a 128-bit identifier whose textual
encoding sorts lexicographically in creation order"; `NewV7` is monotone
within one process.  We model the generator as a counter and render the
128-bit value in the canonical 8-4-4-4-12 lower-case hex form of
`uuid.UUID.String()`. -/

/-- Canonical hyphen-separated hex groups of a 128-bit value; the group
widths are the list argument (most significant group first). -/
def hexGroups : List Nat → Nat → List Char
  | [], _ => []
  | w :: ws, x =>
    match ws with
    | [] => toHexFixed w x
    | _ :: _ => toHexFixed w (x / 16 ^ ws.sum) ++ '-' :: hexGroups ws x

/-- The canonical string form of a 128-bit UUID value. -/
def encodeUuid (n : Nat) : String :=
  ⟨hexGroups [8, 4, 4, 4, 12] (n % 2 ^ 128)⟩

/-- Modelled from the spec: `uuid.Must(uuid.NewV7())` as a monotone counter
(the library guarantees process-local monotonicity of v7 IDs). -/
def uuidNewV7 (ctr : Nat) : String × Nat :=
  (encodeUuid ctr, ctr + 1)

/-- Consume exactly `w` hex digits. -/
def hexRun : Nat → List Char → Option (List Char)
  | 0, l => some l
  | _ + 1, [] => none
  | k + 1, c :: cs => if isHex c then hexRun k cs else none

/-- Consume one hyphen. -/
def dashRun : List Char → Option (List Char)
  | [] => none
  | c :: cs => if c = '-' then some cs else none

/-- `uuid.Parse` acceptance, restricted to the canonical 36-character
8-4-4-4-12 form (the only form this program ever writes as a directory
name; foreign names such as `not-a-uuid` are rejected by both). -/
def validUuid (s : String) : Bool :=
  match ((hexRun 8 s.data).bind dashRun |>.bind (hexRun 4) |>.bind dashRun
      |>.bind (hexRun 4) |>.bind dashRun |>.bind (hexRun 4) |>.bind dashRun
      |>.bind (hexRun 12)) with
  | some [] => true
  | _ => false

theorem hexGroups_lt : ∀ ws : List Nat, ∀ m n : Nat,
    m % 16 ^ ws.sum < n % 16 ^ ws.sum →
    listLtChar (hexGroups ws m) (hexGroups ws n) = true := by
  intro ws
  induction ws with
  | nil => intro m n h; simp [Nat.mod_one] at h
  | cons w ws ih =>
    intro m n h
    cases ws with
    | nil =>
      simpa [hexGroups] using toHexFixed_lt w m n (by simpa using h)
    | cons w2 ws2 =>
      set t := (w2 :: ws2).sum with ht
      have hsum : (w :: w2 :: ws2).sum = w + t := by simp [ht]
      rw [hsum] at h
      have hm : m / 16 ^ t % 16 ^ w = m % 16 ^ (w + t) / 16 ^ t := by
        rw [pow_add, mul_comm, Nat.mod_mul_right_div_self]
      have hn : n / 16 ^ t % 16 ^ w = n % 16 ^ (w + t) / 16 ^ t := by
        rw [pow_add, mul_comm, Nat.mod_mul_right_div_self]
      have hdvd : (16 : Nat) ^ t ∣ 16 ^ (w + t) :=
        pow_dvd_pow 16 (Nat.le_add_left t w)
      rcases Nat.lt_trichotomy (m % 16 ^ (w + t) / 16 ^ t)
          (n % 16 ^ (w + t) / 16 ^ t) with hq | hq | hq
      · -- the leading group already differs
        have hlt : listLtChar (toHexFixed w (m / 16 ^ t))
            (toHexFixed w (n / 16 ^ t)) = true := by
          apply toHexFixed_lt
          rw [hm, hn]; exact hq
        simp only [hexGroups]
        exact listLtChar_append_of_lt _ _ _ _
          (by rw [toHexFixed_length, toHexFixed_length]) hlt
      · -- leading group equal: strip it and recurse
        have hgeq : toHexFixed w (m / 16 ^ t) = toHexFixed w (n / 16 ^ t) := by
          apply toHexFixed_congr
          rw [hm, hn, hq]
        have hrec : m % 16 ^ t < n % 16 ^ t := by
          have h1 : m % 16 ^ t = m % 16 ^ (w + t) % 16 ^ t :=
            (Nat.mod_mod_of_dvd m hdvd).symm
          have h2 : n % 16 ^ t = n % 16 ^ (w + t) % 16 ^ t :=
            (Nat.mod_mod_of_dvd n hdvd).symm
          have em : m % 16 ^ (w + t) =
              16 ^ t * (m % 16 ^ (w + t) / 16 ^ t) + m % 16 ^ (w + t) % 16 ^ t :=
            (Nat.div_add_mod _ _).symm
          have en : n % 16 ^ (w + t) =
              16 ^ t * (m % 16 ^ (w + t) / 16 ^ t) + n % 16 ^ (w + t) % 16 ^ t := by
            rw [hq]; exact (Nat.div_add_mod _ _).symm
          rw [h1, h2]
          omega
        simp only [hexGroups]
        rw [hgeq, listLtChar_append_same, listLtChar_cons_self]
        exact ih m n (by simpa [ht] using hrec)
      · have : m % 16 ^ (w + t) / 16 ^ t ≤ n % 16 ^ (w + t) / 16 ^ t :=
          Nat.div_le_div_right (Nat.le_of_lt h)
        omega

theorem pow16_32_eq : (16 : Nat) ^ 32 = 2 ^ 128 := by norm_num

/-- Two IDs generated in order compare strictly under Go string comparison. -/
theorem encodeUuid_lt (m n : Nat) (hmn : m < n) (hn : n < 2 ^ 128) :
    strLt (encodeUuid m) (encodeUuid n) = true := by
  have hm' : m % 2 ^ 128 = m := Nat.mod_eq_of_lt (lt_trans hmn hn)
  have hn' : n % 2 ^ 128 = n := Nat.mod_eq_of_lt hn
  have hsum : ([8, 4, 4, 4, 12] : List Nat).sum = 32 := by simp
  apply hexGroups_lt
  rw [hsum, pow16_32_eq, Nat.mod_mod_of_dvd _ dvd_rfl,
    Nat.mod_mod_of_dvd _ dvd_rfl, hm', hn']
  omega

theorem hexRun_toHexFixed (w : Nat) : ∀ x : Nat, ∀ rest : List Char,
    hexRun w (toHexFixed w x ++ rest) = some rest := by
  induction w with
  | zero => intro x rest; rfl
  | succ w ih =>
    intro x rest
    simp [toHexFixed, hexRun, isHex_hexChar, ih]

/-- Every generated ID passes the `uuid.Parse` check used by `ListEntries`. -/
theorem validUuid_encodeUuid (n : Nat) : validUuid (encodeUuid n) = true := by
  have h12 : ∀ x : Nat, hexRun 12 (toHexFixed 12 x) = some [] := by
    intro x
    have := hexRun_toHexFixed 12 x []
    simpa using this
  simp [encodeUuid, validUuid, hexGroups, hexRun_toHexFixed, dashRun, h12]

theorem listLtChar_irrefl : ∀ l : List Char, listLtChar l l = false := by
  intro l
  induction l with
  | nil => rfl
  | cons c cs ih => simp [listLtChar, ih]

theorem listLtChar_trans : ∀ l1 l2 l3 : List Char,
    listLtChar l1 l2 = true → listLtChar l2 l3 = true →
    listLtChar l1 l3 = true := by
  intro l1
  induction l1 with
  | nil =>
    intro l2 l3 h1 h2
    cases l2 with
    | nil => simpa [listLtChar] using h1
    | cons b bs =>
      cases l3 with
      | nil => simpa [listLtChar] using h2
      | cons c cs => rfl
  | cons a as ih =>
    intro l2 l3 h1 h2
    cases l2 with
    | nil => simpa [listLtChar] using h1
    | cons b bs =>
      cases l3 with
      | nil => simpa [listLtChar] using h2
      | cons c cs =>
        by_cases hab : a < b
        · by_cases hbc : b < c
          · simp [listLtChar, lt_trans hab hbc]
          · by_cases hcb : c < b
            · simp [listLtChar, hbc, hcb] at h2
            · have hbceq : b = c := le_antisymm (not_lt.mp hcb) (not_lt.mp hbc)
              simp [listLtChar, hbceq ▸ hab]
        · by_cases hba : b < a
          · simp [listLtChar, hab, hba] at h1
          · have habeq : a = b := le_antisymm (not_lt.mp hba) (not_lt.mp hab)
            by_cases hbc : b < c
            · simp [listLtChar, habeq ▸ hbc]
            · by_cases hcb : c < b
              · simp [listLtChar, hbc, hcb] at h2
              · have hbceq : b = c := le_antisymm (not_lt.mp hcb) (not_lt.mp hbc)
                have h1' : listLtChar as bs = true := by
                  simpa [listLtChar, hab, hba] using h1
                have h2' : listLtChar bs cs = true := by
                  simpa [listLtChar, hbc, hcb] using h2
                have hace : a = c := habeq.trans hbceq
                have hac : ¬ a < c := hace ▸ lt_irrefl a
                have hca : ¬ c < a := hace ▸ lt_irrefl a
                simp [listLtChar, hac, hca, ih bs cs h1' h2']

theorem strLt_trans {s1 s2 s3 : String} (h1 : strLt s1 s2 = true)
    (h2 : strLt s2 s3 = true) : strLt s1 s3 = true :=
  listLtChar_trans _ _ _ h1 h2

theorem strLt_irrefl (s : String) : strLt s s = false :=
  listLtChar_irrefl s.data

theorem strLt_ne {s1 s2 : String} (h : strLt s1 s2 = true) : s1 ≠ s2 := by
  intro he
  rw [he, strLt_irrefl] at h
  exact absurd h (by simp)

/-! ## Data model (`internal/history/entry.go`, `internal/history/edit.go`) -/

namespace History

/-- `history.TokenUsage` (same shape as `gemini.TokenUsage`). -/
structure TokenUsage where
  prompt : Int := 0
  candidates : Int := 0
  total : Int := 0
  cached : Int := 0
  thoughts : Int := 0
deriving DecidableEq, Repr

/-- `history.Generation` — generation parameters of an entry. -/
structure Generation where
  promptFile : String := ""
  inputImages : List String := []
  contextFile : String := ""
  characterFile : String := ""
deriving DecidableEq, Repr

/-- `history.Result` — generation results of an entry. -/
structure Result where
  success : Bool := false
  outputImages : List String := []
  tokenUsage : TokenUsage := {}
  errorMessage : String := ""
deriving DecidableEq, Repr

/-- `history.Entry` — one generation record (`meta.yaml`). -/
structure Entry where
  id : String := ""
  createdAt : String := ""
  generation : Generation := {}
  result : Result := {}
deriving DecidableEq, Repr

/-- `history.EditGeneration`. -/
structure EditGeneration where
  promptFile : String := ""
  aspectRatio : String := ""
  imageSize : String := ""
deriving DecidableEq, Repr

/-- `history.EditSource` — provenance of an edit. -/
structure EditSource where
  type : String := ""
  editID : String := ""
  output : String := ""
deriving DecidableEq, Repr

/-- `history.EditEntry` — one edit record (`edit-meta.yaml`). -/
structure EditEntry where
  id : String := ""
  createdAt : String := ""
  source : EditSource := {}
  generation : EditGeneration := {}
  result : Result := {}
deriving DecidableEq, Repr

end History

/-! ## YAML documents

`gopkg.in/yaml.v3` marshalling is modelled at the document level: a YAML
value is a scalar, a string list, or a mapping.  `omitempty` fields are left
out when they hold the Go zero value; unmarshalling starts from the zero
struct, fills fields whose keys are present, and fails on a kind mismatch
(absent keys are not an error — the zero value remains). -/

inductive YVal where
  | s (v : String)
  | i (v : Int)
  | b (v : Bool)
  | strs (v : List String)
  | m (fields : List (String × YVal))

/-- First binding of a key in a YAML mapping. -/
def findField : List (String × YVal) → String → Option YVal
  | [], _ => none
  | (k, v) :: rest, key => if k = key then some v else findField rest key

def getStr (fields : List (String × YVal)) (key : String) : Option String :=
  match findField fields key with
  | none => some ""
  | some (.s v) => some v
  | some _ => none

def getInt (fields : List (String × YVal)) (key : String) : Option Int :=
  match findField fields key with
  | none => some 0
  | some (.i v) => some v
  | some _ => none

def getBool (fields : List (String × YVal)) (key : String) : Option Bool :=
  match findField fields key with
  | none => some false
  | some (.b v) => some v
  | some _ => none

def getStrs (fields : List (String × YVal)) (key : String) : Option (List String) :=
  match findField fields key with
  | none => some []
  | some (.strs v) => some v
  | some _ => none

namespace History

/-- `yaml.Marshal` on `TokenUsage` (tags: `cached,omitempty`,
`thoughts,omitempty`). -/
def TokenUsage.marshal (u : TokenUsage) : YVal :=
  .m ([("prompt", .i u.prompt), ("candidates", .i u.candidates),
      ("total", .i u.total)]
    ++ (if u.cached = 0 then [] else [("cached", .i u.cached)])
    ++ (if u.thoughts = 0 then [] else [("thoughts", .i u.thoughts)]))

def TokenUsage.unmarshal (y : YVal) : Option TokenUsage :=
  match y with
  | .m f => do
    let p ← getInt f "prompt"
    let c ← getInt f "candidates"
    let t ← getInt f "total"
    let ca ← getInt f "cached"
    let th ← getInt f "thoughts"
    pure ⟨p, c, t, ca, th⟩
  | _ => none

/-- `yaml.Marshal` on `Generation` (tags: `context_file,omitempty`,
`character_file,omitempty`). -/
def Generation.marshal (g : Generation) : YVal :=
  .m ([("prompt_file", .s g.promptFile), ("input_images", .strs g.inputImages)]
    ++ (if g.contextFile = "" then [] else [("context_file", .s g.contextFile)])
    ++ (if g.characterFile = "" then []
        else [("character_file", .s g.characterFile)]))

def Generation.unmarshal (y : YVal) : Option Generation :=
  match y with
  | .m f => do
    let pf ← getStr f "prompt_file"
    let ii ← getStrs f "input_images"
    let cf ← getStr f "context_file"
    let ch ← getStr f "character_file"
    pure ⟨pf, ii, cf, ch⟩
  | _ => none

/-- `yaml.Marshal` on `Result` (tags: `output_images,omitempty`,
`token_usage,omitempty`, `error_message,omitempty`). -/
def Result.marshal (r : Result) : YVal :=
  .m ([("success", .b r.success)]
    ++ (if r.outputImages = [] then []
        else [("output_images", .strs r.outputImages)])
    ++ (if r.tokenUsage = ({} : TokenUsage) then []
        else [("token_usage", r.tokenUsage.marshal)])
    ++ (if r.errorMessage = "" then []
        else [("error_message", .s r.errorMessage)]))

def Result.unmarshal (y : YVal) : Option Result :=
  match y with
  | .m f => do
    let su ← getBool f "success"
    let oi ← getStrs f "output_images"
    let tu ← match findField f "token_usage" with
      | none => some ({} : TokenUsage)
      | some yu => TokenUsage.unmarshal yu
    let em ← getStr f "error_message"
    pure ⟨su, oi, tu, em⟩
  | _ => none

/-- `yaml.Marshal` on `Entry` — all four fields are always emitted. -/
def Entry.marshal (e : Entry) : YVal :=
  .m [("id", .s e.id), ("created_at", .s e.createdAt),
      ("generation", e.generation.marshal), ("result", e.result.marshal)]

def Entry.unmarshal (y : YVal) : Option Entry :=
  match y with
  | .m f => do
    let id ← getStr f "id"
    let ca ← getStr f "created_at"
    let g ← match findField f "generation" with
      | none => some ({} : Generation)
      | some yg => Generation.unmarshal yg
    let r ← match findField f "result" with
      | none => some ({} : Result)
      | some yr => Result.unmarshal yr
    pure ⟨id, ca, g, r⟩
  | _ => none

/-- `yaml.Marshal` on `EditSource` (tag: `edit_id,omitempty`). -/
def EditSource.marshal (s : EditSource) : YVal :=
  .m ([("type", .s s.type)]
    ++ (if s.editID = "" then [] else [("edit_id", .s s.editID)])
    ++ [("output", .s s.output)])

def EditSource.unmarshal (y : YVal) : Option EditSource :=
  match y with
  | .m f => do
    let t ← getStr f "type"
    let e ← getStr f "edit_id"
    let o ← getStr f "output"
    pure ⟨t, e, o⟩
  | _ => none

/-- `yaml.Marshal` on `EditGeneration` (tags: `aspect_ratio,omitempty`,
`image_size,omitempty`). -/
def EditGeneration.marshal (g : EditGeneration) : YVal :=
  .m ([("prompt_file", .s g.promptFile)]
    ++ (if g.aspectRatio = "" then [] else [("aspect_ratio", .s g.aspectRatio)])
    ++ (if g.imageSize = "" then [] else [("image_size", .s g.imageSize)]))

def EditGeneration.unmarshal (y : YVal) : Option EditGeneration :=
  match y with
  | .m f => do
    let pf ← getStr f "prompt_file"
    let ar ← getStr f "aspect_ratio"
    let sz ← getStr f "image_size"
    pure ⟨pf, ar, sz⟩
  | _ => none

/-- `yaml.Marshal` on `EditEntry`. -/
def EditEntry.marshal (e : EditEntry) : YVal :=
  .m [("id", .s e.id), ("created_at", .s e.createdAt),
      ("source", e.source.marshal), ("generation", e.generation.marshal),
      ("result", e.result.marshal)]

def EditEntry.unmarshal (y : YVal) : Option EditEntry :=
  match y with
  | .m f => do
    let id ← getStr f "id"
    let ca ← getStr f "created_at"
    let s ← match findField f "source" with
      | none => some ({} : EditSource)
      | some ys => EditSource.unmarshal ys
    let g ← match findField f "generation" with
      | none => some ({} : EditGeneration)
      | some yg => EditGeneration.unmarshal yg
    let r ← match findField f "result" with
      | none => some ({} : Result)
      | some yr => Result.unmarshal yr
    pure ⟨id, ca, s, g, r⟩
  | _ => none

theorem TokenUsage.unmarshal_marshal_tokenUsage (u : TokenUsage) :
    TokenUsage.unmarshal u.marshal = some u := by
  obtain ⟨p, c, t, ca, th⟩ := u
  by_cases hca : ca = 0 <;> by_cases hth : th = 0 <;>
    simp [TokenUsage.marshal, TokenUsage.unmarshal, findField, getInt,
      hca, hth]

theorem Generation.unmarshal_marshal_generation (g : Generation) :
    Generation.unmarshal g.marshal = some g := by
  obtain ⟨pf, ii, cf, ch⟩ := g
  by_cases hcf : cf = "" <;> by_cases hch : ch = "" <;>
    simp [Generation.marshal, Generation.unmarshal, findField, getStr,
      getStrs, hcf, hch]

theorem Result.unmarshal_marshal_result (r : Result) :
    Result.unmarshal r.marshal = some r := by
  obtain ⟨su, oi, tu, em⟩ := r
  by_cases hoi : oi = [] <;> by_cases htu : tu = ({} : TokenUsage) <;>
    by_cases hem : em = "" <;>
    simp [Result.marshal, Result.unmarshal, findField, getBool, getStrs,
      getStr, hoi, htu, hem, TokenUsage.unmarshal_marshal_tokenUsage]

theorem Entry.unmarshal_marshal_entry (e : Entry) :
    Entry.unmarshal e.marshal = some e := by
  obtain ⟨id, ca, g, r⟩ := e
  simp [Entry.marshal, Entry.unmarshal, findField, getStr,
    Generation.unmarshal_marshal_generation, Result.unmarshal_marshal_result]

theorem EditSource.unmarshal_marshal_editSource (s : EditSource) :
    EditSource.unmarshal s.marshal = some s := by
  obtain ⟨t, e, o⟩ := s
  by_cases he : e = "" <;>
    simp [EditSource.marshal, EditSource.unmarshal, findField, getStr, he]

theorem EditGeneration.unmarshal_marshal_editGeneration (g : EditGeneration) :
    EditGeneration.unmarshal g.marshal = some g := by
  obtain ⟨pf, ar, sz⟩ := g
  by_cases har : ar = "" <;> by_cases hsz : sz = "" <;>
    simp [EditGeneration.marshal, EditGeneration.unmarshal, findField,
      getStr, har, hsz]

theorem EditEntry.unmarshal_marshal_editEntry (e : EditEntry) :
    EditEntry.unmarshal e.marshal = some e := by
  obtain ⟨id, ca, s, g, r⟩ := e
  simp [EditEntry.marshal, EditEntry.unmarshal, findField, getStr,
    EditSource.unmarshal_marshal_editSource, EditGeneration.unmarshal_marshal_editGeneration,
    Result.unmarshal_marshal_result]

end History

/-! ## Filesystem model

A history directory is a list of entry directories (plus non-directory
entries, which `ListEntries` skips via the `IsDir` check).  Files are an
association list from file name to content; the `edits/` subdirectory is a
flag plus a list of edit directories.  A real filesystem has unique names;
the operations below use first-match semantics, which agrees with it. -/

inductive FileData where
  | text (s : String)
  | yamlDoc (y : YVal)
  | bin (b : List Nat)

/-- Replace the first binding of a key, or append a new one
(`os.WriteFile` semantics on an association list). -/
def setAssoc {α : Type} : List (String × α) → String → α → List (String × α)
  | [], k, v => [(k, v)]
  | (k', v') :: rest, k, v =>
    if k' = k then (k, v) :: rest else (k', v') :: setAssoc rest k v

/-- First binding of a key. -/
def lookupAssoc {α : Type} : List (String × α) → String → Option α
  | [], _ => none
  | (k', v') :: rest, k => if k' = k then some v' else lookupAssoc rest k

structure EditDir where
  name : String
  files : List (String × FileData)

structure EntryDir where
  name : String
  files : List (String × FileData)
  editsDirExists : Bool
  edits : List EditDir

structure HistoryFs where
  dirs : List EntryDir
  loose : List String

def emptyEntryDir (name : String) : EntryDir := ⟨name, [], false, []⟩

/-- Apply `f` to the first directory with the given name. -/
def updFirstDir : List EntryDir → String → (EntryDir → EntryDir) → List EntryDir
  | [], _, _ => []
  | d :: ds, name, f =>
    if d.name = name then f d :: ds else d :: updFirstDir ds name f

def HistoryFs.getDir (fs : HistoryFs) (name : String) : Option EntryDir :=
  fs.dirs.find? (fun d => d.name == name)

/-- `os.MkdirAll(historyDir/<name>)`. -/
def HistoryFs.mkdirEntry (fs : HistoryFs) (name : String) : HistoryFs :=
  if fs.dirs.any (fun d => d.name == name) then fs
  else { fs with dirs := fs.dirs ++ [emptyEntryDir name] }

/-- `os.WriteFile(historyDir/<dirName>/<fileName>)` (no-op when the
directory is missing; the callers below only write into directories they
just created). -/
def HistoryFs.writeEntryFile (fs : HistoryFs) (dirName fileName : String)
    (data : FileData) : HistoryFs :=
  { fs with dirs := (updFirstDir fs.dirs dirName
      (fun d => { d with files := setAssoc d.files fileName data })) }

/-- `os.RemoveAll(historyDir/<name>)`. -/
def HistoryFs.removeEntryDir (fs : HistoryFs) (name : String) : HistoryFs :=
  { fs with dirs := fs.dirs.filter (fun d => !(d.name == name)) }

/-- Modify the first entry directory with the given name. -/
def HistoryFs.updDir (fs : HistoryFs) (name : String) (f : EntryDir → EntryDir) :
    HistoryFs :=
  { fs with dirs := updFirstDir fs.dirs name f }

/-- Apply `f` to the first edit directory with the given name. -/
def updFirstEdit : List EditDir → String → (EditDir → EditDir) → List EditDir
  | [], _, _ => []
  | d :: ds, name, f =>
    if d.name = name then f d :: ds else d :: updFirstEdit ds name f

/-- `os.MkdirAll(entryDir/edits/<editName>)`, restricted to an existing
entry directory: creates the `edits/` directory and the edit directory. -/
def EntryDir.mkdirEdit (d : EntryDir) (editName : String) : EntryDir :=
  let d1 := { d with editsDirExists := true }
  if d1.edits.any (fun ed => ed.name == editName) then d1
  else { d1 with edits := d1.edits ++ [⟨editName, []⟩] }

def EntryDir.writeEditFile (d : EntryDir) (editName fileName : String)
    (data : FileData) : EntryDir :=
  { d with edits := (updFirstEdit d.edits editName
      (fun ed => { ed with files := setAssoc ed.files fileName data })) }

/-- `os.RemoveAll(entryDir/edits/<editName>)`. -/
def EntryDir.removeEdit (d : EntryDir) (editName : String) : EntryDir :=
  { d with edits := d.edits.filter (fun ed => !(ed.name == editName)) }

namespace History

def metaFile : String := "meta.yaml"
def PromptFile : String := "prompt.txt"
def ContextFile : String := "context.md"
def CharacterFile : String := "character.md"
def editMetaFile : String := "edit-meta.yaml"
def EditPromptFile : String := "edit-prompt.txt"

/-- `history.NewEntry`: fresh v7 ID, creation timestamp `now`, zero
`Generation`/`Result`. -/
def newEntry (ctr : Nat) (now : String) : Entry × Nat :=
  let idc := uuidNewV7 ctr
  ({ id := idc.1, createdAt := now }, idc.2)

/-- `history.NewEntryFromSource`: fresh entry, `Generation` metadata copied
from the source (`append([]string{}, ...)` takes a value copy of the
slice; the aliasing consequence is modelled separately by the slice heap
below). -/
def newEntryFromSource (source : Entry) (ctr : Nat) (now : String) : Entry × Nat :=
  let ec := newEntry ctr now
  ({ ec.1 with generation :=
      { promptFile := source.generation.promptFile
        inputImages := source.generation.inputImages
        contextFile := source.generation.contextFile
        characterFile := source.generation.characterFile } }, ec.2)

/-- `history.NewEditEntry`: fresh v7 ID, `Generation.PromptFile`
preset to `edit-prompt.txt`. -/
def newEditEntry (ctr : Nat) (now : String) : EditEntry × Nat :=
  let idc := uuidNewV7 ctr
  ({ id := idc.1, createdAt := now,
     generation := { promptFile := EditPromptFile } }, idc.2)

/-- `Entry.Save`: create the entry directory and (over)write `meta.yaml`. -/
def Entry.save (e : Entry) (fs : HistoryFs) : HistoryFs :=
  (fs.mkdirEntry e.id).writeEntryFile e.id metaFile (.yamlDoc e.marshal)

/-- `Entry.SavePrompt`: write `prompt.txt` into the entry directory. -/
def Entry.savePrompt (e : Entry) (fs : HistoryFs) (prompt : String) : HistoryFs :=
  fs.writeEntryFile e.id PromptFile (.text prompt)

/-- `Entry.Cleanup`: remove the entry directory recursively. -/
def Entry.cleanup (e : Entry) (fs : HistoryFs) : HistoryFs :=
  fs.removeEntryDir e.id

/-- `loadEntry`: read and parse `meta.yaml` of a directory. -/
def loadEntry (d : EntryDir) : Option Entry :=
  match lookupAssoc d.files metaFile with
  | some (.yamlDoc y) => Entry.unmarshal y
  | _ => none

/-- `history.ListEntries`: keep subdirectories whose name parses as a UUID,
load each `meta.yaml` (skipping those that fail to parse), sort ascending
by ID.  Non-directory entries (`loose`) are skipped by the `IsDir` check;
a missing history directory is the empty `HistoryFs`. -/
def listEntries (fs : HistoryFs) : List Entry :=
  List.insertionSort (fun a b => strLt a.id b.id)
    ((fs.dirs.filter (fun d => validUuid d.name)).filterMap loadEntry)

/-- `history.GetLatestEntry` (`none` models the "no history entries found"
error). -/
def getLatestEntry (fs : HistoryFs) : Option Entry :=
  (listEntries fs).getLast?

/-- `history.GetEntryByID`: load `historyDir/<id>/meta.yaml` directly. -/
def getEntryByID (fs : HistoryFs) (id : String) : Option Entry :=
  (fs.getDir id).bind loadEntry

/-- `EditEntry.Save`: create `edits/<id>/` and write `edit-meta.yaml`. -/
def EditEntry.save (ed : EditEntry) (d : EntryDir) : EntryDir :=
  (d.mkdirEdit ed.id).writeEditFile ed.id editMetaFile (.yamlDoc ed.marshal)

/-- `EditEntry.SavePrompt`. -/
def EditEntry.savePrompt (ed : EditEntry) (d : EntryDir) (prompt : String) :
    EntryDir :=
  d.writeEditFile ed.id EditPromptFile (.text prompt)

/-- `EditEntry.Cleanup`: remove only `edits/<id>/`. -/
def EditEntry.cleanup (ed : EditEntry) (d : EntryDir) : EntryDir :=
  d.removeEdit ed.id

/-- `loadEditEntry`. -/
def loadEditEntry (dd : EditDir) : Option EditEntry :=
  match lookupAssoc dd.files editMetaFile with
  | some (.yamlDoc y) => EditEntry.unmarshal y
  | _ => none

/-- `history.ListEditEntries` (missing `edits/` directory yields the empty
list, mirroring the `os.IsNotExist` branch). -/
def listEditEntries (d : EntryDir) : List EditEntry :=
  if d.editsDirExists then
    List.insertionSort (fun a b => strLt a.id b.id)
      ((d.edits.filter (fun ed => validUuid ed.name)).filterMap loadEditEntry)
  else []

/-- `history.GetLatestEditEntry`. -/
def getLatestEditEntry (d : EntryDir) : Option EditEntry :=
  (listEditEntries d).getLast?

/-- `history.GetEditEntryByID`: reads `edits/<id>/edit-meta.yaml` directly
(no UUID check, no listing). -/
def getEditEntryByID (d : EntryDir) (id : String) : Option EditEntry :=
  (d.edits.find? (fun ed => ed.name == id)).bind loadEditEntry

/-- `history.GetEditOutputPath` as a triple (entry dir, edit id, file). -/
def getEditOutputPath (entryId editId output : String) : String × String × String :=
  (entryId, editId, output)

end History

/-! ## External filesystem (input images live outside the history dir) -/

abbrev ExtFs : Type := List (String × List Nat)

def extLookup (extFs : ExtFs) (p : String) : Option (List Nat) :=
  lookupAssoc extFs p

/-- `os.Stat` existence check. -/
def extExists (extFs : ExtFs) (p : String) : Bool :=
  (extLookup extFs p).isSome

/-- Split a character list on a separator character (each occurrence starts
a new group; `splitOnChar c l` always returns at least one group). -/
def splitOnChar (sep : Char) : List Char → List (List Char)
  | [] => [[]]
  | c :: cs =>
    match splitOnChar sep cs with
    | [] => [[c]]
    | g :: gs => if c = sep then [] :: g :: gs else (c :: g) :: gs

/-- `filepath.Base` (restricted to slash-separated non-degenerate paths). -/
def filepathBase (p : String) : String :=
  let parts := (splitOnChar '/' p.data).filter (fun s => !s.isEmpty)
  match parts.getLast? with
  | some x => ⟨x⟩
  | none => if p = "" then "." else "/"

namespace History

/-- Modelled from the spec: `Entry.SaveInputImages` is absent from `src/`
(only its callers and its test are there).  Per §4.3 it copies each input
image into the entry directory under its base name; per §7 a failed copy is
a non-fatal warning, so missing sources are skipped. -/
def Entry.saveInputImages (e : Entry) (fs : HistoryFs) (extFs : ExtFs)
    (paths : List String) : HistoryFs :=
  paths.foldl
    (fun acc p =>
      match extLookup extFs p with
      | some data => acc.writeEntryFile e.id (filepathBase p) (.bin data)
      | none => acc) fs

end History

/-! ## Validator (`validate.go`, `validateAspectRatio` / `validateImageSize`
/ `validateInputImages` / `validateContext`) -/

inductive ValErr where
  | invalidAspectRatio (s : String)
  | invalidImageSize (s : String)
  | noInputImages
  | inputImageNotFound (p : String)
  | inputImagesNotFound (ps : List String)
deriving DecidableEq, Repr

/-- The input paths a validation error names. -/
def ValErr.missingPaths : ValErr → List String
  | .inputImageNotFound p => [p]
  | .inputImagesNotFound ps => ps
  | _ => []

def isDigits (s : String) : Bool :=
  !(s == "") && s.data.all (fun c => c.isDigit)

/-- RE2 `^\d+:\d+$`: exactly one `:`, flanked by nonempty digit runs. -/
def aspectRatioMatch (s : String) : Bool :=
  match splitOnChar ':' s.data with
  | [a, b] => isDigits ⟨a⟩ && isDigits ⟨b⟩
  | _ => false

/-- `validateAspectRatio`: empty allowed, otherwise `N:N`. -/
def validateAspectRatio (aspect : String) : Option ValErr :=
  if aspect = "" then none
  else if aspectRatioMatch aspect then none
  else some (.invalidAspectRatio aspect)

def validSizes : List String := ["1K", "2K", "4K"]

/-- `validateImageSize`: empty allowed, otherwise one of `1K`, `2K`, `4K`. -/
def validateImageSize (size : String) : Option ValErr :=
  if size = "" then none
  else if validSizes.contains size then none
  else some (.invalidImageSize size)

/-- `validateInputImages`: collect every missing path, then report them all
in a single error (singular or plural message form as in the source). -/
def validateInputImages (extFs : ExtFs) (paths : List String) : Option ValErr :=
  match paths.filter (fun p => !extExists extFs p) with
  | [] => none
  | [p] => some (.inputImageNotFound p)
  | ps => some (.inputImagesNotFound ps)

/-! ## Generation service (`internal/generation/service.go`) -/

/-- `generation.Spec`. -/
structure Spec where
  model : String := ""
  prompt : String := ""
  imagePaths : List String := []
  aspectRatio : String := ""
  imageSize : String := ""
  inputImageNames : List String := []
  sourceEntryID : String := ""
deriving DecidableEq, Repr

/-- `generation.EditSpec`. -/
structure EditSpec where
  model : String := ""
  prompt : String := ""
  aspectRatio : String := ""
  imageSize : String := ""
  sourceImagePath : String := ""
  entryID : String := ""
  sourceType : String := ""
  sourceEditID : String := ""
  sourceOutput : String := ""
deriving DecidableEq, Repr

/-- Modelled from the spec: `validateSpec` itself is absent from `src/`
(only its call site in `Service.Run` is); per §4.2 `ValidateSpec` composes
aspect-ratio, image-size, at-least-one-input and input-existence checks,
exactly as `validateContext` (present in `src/`) does over the same
fields. -/
def validateSpec (extFs : ExtFs) (spec : Spec) : Option ValErr :=
  match validateAspectRatio spec.aspectRatio with
  | some e => some e
  | none =>
    match validateImageSize spec.imageSize with
    | some e => some e
    | none =>
      if spec.imagePaths = [] then some .noInputImages
      else validateInputImages extFs spec.imagePaths

namespace Gemini

/-- `gemini.Params`. -/
structure Params where
  model : String := ""
  prompt : String := ""
  imagePaths : List String := []
  aspectRatio : String := ""
  imageSize : String := ""
deriving DecidableEq, Repr

/-- One inline image part of a response (nil/empty parts are represented by
empty `data` and skipped, as in the source). -/
structure ImgPart where
  mimeType : String := ""
  data : List Nat := []
deriving DecidableEq, Repr

/-- `gemini.Result` of a `Generate` call. -/
structure Result where
  response : Option (List ImgPart) := none
  error : Option String := none
  tokenUsage : History.TokenUsage := {}
deriving Repr

/-- `strings.ToLower` (ASCII, which covers every MIME string compared). -/
def toLowerStr (s : String) : String := ⟨s.data.map Char.toLower⟩

/-- `gemini.NormalizeExt`. -/
def normalizeExt (mimeType : String) : String :=
  let lower := toLowerStr mimeType
  if lower = "image/jpeg" ∨ lower = "image/jpg" then ".jpg"
  else if lower = "image/png" then ".png"
  else if lower = "image/webp" then ".webp"
  else if lower = "image/gif" then ".gif"
  else if lower = "image/bmp" then ".bmp"
  else if lower = "image/avif" then ".avif"
  else if lower = "image/heic" then ".heic"
  else if lower = "image/heif" then ".heif"
  else if lower = "image/tiff" ∨ lower = "image/tif" then ".tiff"
  else if "jpeg".data <:+: lower.data then ".jpg"
  else ".bin"

/-- `output-<runid>-<n><ext>` file name of the `n`-th saved image. -/
def outputFileName (runId : String) (idx : Nat) (mime : String) : String :=
  "output-" ++ runId ++ "-" ++ toString (idx + 1) ++ normalizeExt mime

/-- The (name, bytes) pairs `gemini.SaveImages` writes, in order; parts with
no inline data are skipped without advancing the index. -/
def collectImages (runId : String) : Nat → List ImgPart → List (String × List Nat)
  | _, [] => []
  | idx, part :: rest =>
    if part.data = [] then collectImages runId idx rest
    else (outputFileName runId idx part.mimeType, part.data)
      :: collectImages runId (idx + 1) rest

/-- `gemini.SaveImages` (the target directory always exists at the call
sites modelled here, so `MkdirAll` is a no-op; write failures are outside
the model).  Returns the saved file names with their contents. -/
def saveImages (resp : Option (List ImgPart)) (runId : String) :
    Except String (List (String × List Nat)) :=
  match resp with
  | none => .error "response is empty"
  | some parts =>
    match collectImages runId 0 parts with
    | [] => .error "no image response found"
    | saved => .ok saved

end Gemini

namespace Generation

/-- `generation.Result`. -/
structure Result where
  entryID : String
  outputImages : List String
deriving DecidableEq, Repr

/-- `generation.EditResult`. -/
structure EditResult where
  editID : String
  outputImages : List String
deriving DecidableEq, Repr

/-- The wrapped errors `Run`/`Edit` return. -/
inductive SvcError where
  | validation (e : ValErr)
  | generationFailed (msg : String)
  | saveImagesFailed (msg : String)
  | editFailed (msg : String)
deriving DecidableEq, Repr

/-- The `Generator` capability (`Generate(ctx, params)`); the context only
carries cancellation, which surfaces as an error result. -/
def Generator : Type := Gemini.Params → Gemini.Result

/-- Mutable world of a service call: the uuid counter, the wall clock
rendering used for `CreatedAt`, and the history directory. -/
structure RunState where
  ctr : Nat
  now : String
  fs : HistoryFs

/-- `Service.Run`: validate, create the entry, write prompt and input-image
copies, call the generator, roll back on failure, persist results on
success.  Also returns the list of generator calls made. -/
def serviceRun (gen : Generator) (spec : Spec) (extFs : ExtFs)
    (st : RunState) :
    Except SvcError Result × RunState × List Gemini.Params :=
  match validateSpec extFs spec with
  | some e => (.error (.validation e), st, [])
  | none =>
    let ec :=
      if spec.sourceEntryID ≠ "" then
        History.newEntryFromSource { id := spec.sourceEntryID } st.ctr st.now
      else History.newEntry st.ctr st.now
    let ctr1 := ec.2
    let entry : History.Entry :=
      { ec.1 with generation :=
          { ec.1.generation with promptFile := History.PromptFile,
                                 inputImages := spec.inputImageNames } }
    let fs1 := st.fs.mkdirEntry entry.id
    let fs2 := entry.savePrompt fs1 spec.prompt
    let fs3 := entry.saveInputImages fs2 extFs spec.imagePaths
    let params : Gemini.Params :=
      { model := spec.model, prompt := spec.prompt,
        imagePaths := spec.imagePaths, aspectRatio := spec.aspectRatio,
        imageSize := spec.imageSize }
    let res := gen params
    match res.error with
    | some msg =>
      (.error (.generationFailed msg),
       { st with ctr := ctr1, fs := entry.cleanup fs3 }, [params])
    | none =>
      let rc := uuidNewV7 ctr1
      match Gemini.saveImages res.response rc.1 with
      | .error msg =>
        (.error (.saveImagesFailed msg),
         { st with ctr := rc.2, fs := entry.cleanup fs3 }, [params])
      | .ok saved =>
        let fs4 := saved.foldl
          (fun acc nv => acc.writeEntryFile entry.id nv.1 (.bin nv.2)) fs3
        let entry2 : History.Entry :=
          { entry with result :=
              { success := true, outputImages := saved.map (fun nv => nv.1),
                tokenUsage := res.tokenUsage, errorMessage := "" } }
        let fs5 := entry2.save fs4
        (.ok { entryID := entry.id, outputImages := saved.map (fun nv => nv.1) },
         { st with ctr := rc.2, fs := fs5 }, [params])

/-- `Service.Edit`: no validation; create the edit entry under
`entryDir/edits/`, write the prompt, call the generator with exactly the
source image, roll back only the edit directory on failure. -/
def serviceEdit (gen : Generator) (spec : EditSpec) (st : RunState) :
    Except SvcError EditResult × RunState × List Gemini.Params :=
  let ec := History.newEditEntry st.ctr st.now
  let ctr1 := ec.2
  let editEntry : History.EditEntry :=
    { ec.1 with source :=
        { type := spec.sourceType, editID := spec.sourceEditID,
          output := spec.sourceOutput } }
  let fs1 := (st.fs.mkdirEntry spec.entryID).updDir spec.entryID
    (fun d => d.mkdirEdit editEntry.id)
  let fs2 := fs1.updDir spec.entryID
    (fun d => editEntry.savePrompt d spec.prompt)
  let params : Gemini.Params :=
    { model := spec.model, prompt := spec.prompt,
      imagePaths := [spec.sourceImagePath] }
  let res := gen params
  match res.error with
  | some msg =>
    (.error (.editFailed msg),
     { st with ctr := ctr1,
               fs := fs2.updDir spec.entryID (fun d => editEntry.cleanup d) },
     [params])
  | none =>
    let rc := uuidNewV7 ctr1
    match Gemini.saveImages res.response rc.1 with
    | .error msg =>
      (.error (.saveImagesFailed msg),
       { st with ctr := rc.2,
                 fs := fs2.updDir spec.entryID (fun d => editEntry.cleanup d) },
       [params])
    | .ok saved =>
      let fs3 := saved.foldl
        (fun acc nv => acc.updDir spec.entryID
          (fun d => d.writeEditFile editEntry.id nv.1 (.bin nv.2))) fs2
      let editEntry2 : History.EditEntry :=
        { editEntry with result :=
            { success := true, outputImages := saved.map (fun nv => nv.1),
              tokenUsage := res.tokenUsage, errorMessage := "" } }
      let fs4 := fs3.updDir spec.entryID (fun d => editEntry2.save d)
      (.ok { editID := editEntry.id,
             outputImages := saved.map (fun nv => nv.1) },
       { st with ctr := rc.2, fs := fs4 }, [params])

/-- A sequence of `Run` calls (each step supplies its generator), returning
the final state and the per-call outcomes. -/
def runMany (extFs : ExtFs) : List (Generator × Spec) → RunState →
    RunState × List (Except SvcError Result)
  | [], st => (st, [])
  | gs :: rest, st =>
    let out := serviceRun gs.1 gs.2 extFs st
    let tail := runMany extFs rest out.2.1
    (tail.1, out.1 :: tail.2)

end Generation

/-- The edit-source resolution of the `edit` CLI command: editing from an
existing edit (`--edit-latest` / `--edit-id`) yields source type `"edit"`
with that edit's ID; otherwise the generation's own first output is edited
with source type `"generate"` and the edit-ID variable keeps its zero
value.  Returns (sourceType, sourceEditID, sourceOutput). -/
def resolveEditSource (entryRec : EntryDir) (genEntry : History.Entry)
    (editLatest : Bool) (editID : String) :
    Except String (String × String × String) :=
  if editLatest || !(editID == "") then
    match (if editLatest then History.getLatestEditEntry entryRec
           else History.getEditEntryByID entryRec editID) with
    | none => .error "failed to get edit entry"
    | some ed =>
      match ed.result.outputImages with
      | [] => .error "no output images in edit entry"
      | o :: _ => .ok ("edit", ed.id, o)
  else
    match genEntry.result.outputImages with
    | [] => .error "no output images in history entry"
    | o :: _ => .ok ("generate", "", o)

/-! ## Go slice aliasing (for the deep-copy part of regeneration linkage)

A Go `[]string` value is a reference into a heap of backing arrays;
`append([]string{}, src...)` allocates a fresh array with the same
contents. -/

abbrev SliceHeap : Type := List (List String)

def heapRead (h : SliceHeap) (r : Nat) : List String := h.getD r []

/-- In-place mutation of the slice behind reference `r`
(e.g. `src[0] = "modified.png"`). -/
def heapWrite (h : SliceHeap) (r : Nat) (v : List String) : SliceHeap :=
  h.set r v

/-- `append([]string{}, h[r]...)`: allocate a copy, return the new heap and
the fresh reference. -/
def allocCopy (h : SliceHeap) (r : Nat) : SliceHeap × Nat :=
  (h ++ [heapRead h r], h.length)

/-! ## Store lemmas -/

theorem lookupAssoc_setAssoc_self {α : Type} (l : List (String × α))
    (k : String) (v : α) : lookupAssoc (setAssoc l k v) k = some v := by
  induction l with
  | nil => simp [setAssoc, lookupAssoc]
  | cons p rest ih =>
    obtain ⟨k', v'⟩ := p
    by_cases h : k' = k <;> simp [setAssoc, lookupAssoc, h, ih]

theorem find?_updFirstDir_self (l : List EntryDir) (name : String)
    (f : EntryDir → EntryDir) (hf : ∀ d, (f d).name = d.name) :
    (updFirstDir l name f).find? (fun d => d.name == name) =
      (l.find? (fun d => d.name == name)).map f := by
  induction l with
  | nil => simp [updFirstDir]
  | cons d ds ih =>
    by_cases h : d.name = name
    · rw [updFirstDir, if_pos h]
      have hfd : ((f d).name == name) = true := by rw [hf d, h]; exact beq_self_eq_true _
      have hdn : (d.name == name) = true := by rw [h]; exact beq_self_eq_true _
      simp [List.find?_cons, hfd, hdn]
    · rw [updFirstDir, if_neg h]
      have hdn : (d.name == name) = false := by
        rw [beq_eq_false_iff_ne]; exact h
      simp [List.find?_cons, hdn, ih]

theorem find?_updFirstDir_ne (l : List EntryDir) (name other : String)
    (f : EntryDir → EntryDir) (hf : ∀ d, (f d).name = d.name)
    (hne : other ≠ name) :
    (updFirstDir l name f).find? (fun d => d.name == other) =
      l.find? (fun d => d.name == other) := by
  induction l with
  | nil => simp [updFirstDir]
  | cons d ds ih =>
    by_cases h : d.name = name
    · rw [updFirstDir, if_pos h]
      have hfd : ((f d).name == other) = false := by
        rw [hf d, h, beq_eq_false_iff_ne]; exact fun hh => hne hh.symm
      have hdn : (d.name == other) = false := by
        rw [h, beq_eq_false_iff_ne]; exact fun hh => hne hh.symm
      simp [List.find?_cons, hfd, hdn]
    · rw [updFirstDir, if_neg h]
      by_cases h3 : d.name = other
      · have hdo : (d.name == other) = true := by rw [h3]; exact beq_self_eq_true _
        simp [List.find?_cons, hdo]
      · have hdo : (d.name == other) = false := by
          rw [beq_eq_false_iff_ne]; exact h3
        simp [List.find?_cons, hdo, ih]

theorem find?_updFirstEdit_self (l : List EditDir) (name : String)
    (f : EditDir → EditDir) (hf : ∀ d, (f d).name = d.name) :
    (updFirstEdit l name f).find? (fun d => d.name == name) =
      (l.find? (fun d => d.name == name)).map f := by
  induction l with
  | nil => simp [updFirstEdit]
  | cons d ds ih =>
    by_cases h : d.name = name
    · rw [updFirstEdit, if_pos h]
      have hfd : ((f d).name == name) = true := by rw [hf d, h]; exact beq_self_eq_true _
      have hdn : (d.name == name) = true := by rw [h]; exact beq_self_eq_true _
      simp [List.find?_cons, hfd, hdn]
    · rw [updFirstEdit, if_neg h]
      have hdn : (d.name == name) = false := by
        rw [beq_eq_false_iff_ne]; exact h
      simp [List.find?_cons, hdn, ih]

theorem getDir_mkdirEntry_self (fs : HistoryFs) (name : String) :
    (fs.mkdirEntry name).getDir name =
      some ((fs.getDir name).getD (emptyEntryDir name)) := by
  unfold HistoryFs.mkdirEntry HistoryFs.getDir
  by_cases h : fs.dirs.any (fun d => d.name == name) = true
  · have hs : (fs.dirs.find? (fun d => d.name == name)).isSome :=
      List.find?_isSome.mpr (List.any_eq_true.mp h)
    obtain ⟨dd, hd⟩ := Option.isSome_iff_exists.mp hs
    simp [h, hd]
  · have hn : fs.dirs.find? (fun d => d.name == name) = none := by
      rw [List.find?_eq_none]
      intro x hx hb
      exact h (List.any_eq_true.mpr ⟨x, hx, hb⟩)
    simp [h, hn, List.find?_append, emptyEntryDir]

theorem getDir_writeEntryFile_self (fs : HistoryFs) (dn fn : String)
    (v : FileData) :
    (fs.writeEntryFile dn fn v).getDir dn =
      (fs.getDir dn).map (fun d => { d with files := setAssoc d.files fn v }) := by
  unfold HistoryFs.writeEntryFile HistoryFs.getDir
  exact find?_updFirstDir_self _ _ _ (fun d => rfl)

theorem edits_mkdirEdit_self (d : EntryDir) (name : String) :
    (d.mkdirEdit name).edits.find? (fun ed => ed.name == name) =
      some ((d.edits.find? (fun ed => ed.name == name)).getD ⟨name, []⟩) := by
  unfold EntryDir.mkdirEdit
  by_cases h : d.edits.any (fun ed => ed.name == name) = true
  · have hs : (d.edits.find? (fun ed => ed.name == name)).isSome :=
      List.find?_isSome.mpr (List.any_eq_true.mp h)
    obtain ⟨ed, hd⟩ := Option.isSome_iff_exists.mp hs
    simp [h, hd]
  · have hn : d.edits.find? (fun ed => ed.name == name) = none := by
      rw [List.find?_eq_none]
      intro x hx hb
      exact h (List.any_eq_true.mpr ⟨x, hx, hb⟩)
    simp [h, hn, List.find?_append]

theorem edits_writeEditFile_self (d : EntryDir) (en fn : String) (v : FileData) :
    (d.writeEditFile en fn v).edits.find? (fun ed => ed.name == en) =
      (d.edits.find? (fun ed => ed.name == en)).map
        (fun ed => { ed with files := setAssoc ed.files fn v }) := by
  unfold EntryDir.writeEditFile
  exact find?_updFirstEdit_self _ _ _ (fun ed => rfl)

namespace History

theorem getEntryByID_save (e : Entry) (fs : HistoryFs) :
    getEntryByID (Entry.save e fs) e.id = some e := by
  unfold Entry.save getEntryByID
  rw [getDir_writeEntryFile_self, getDir_mkdirEntry_self]
  simp [loadEntry, lookupAssoc_setAssoc_self, Entry.unmarshal_marshal_entry]

theorem getEditEntryByID_save (ed : EditEntry) (d : EntryDir) :
    getEditEntryByID (EditEntry.save ed d) ed.id = some ed := by
  unfold EditEntry.save getEditEntryByID
  rw [edits_writeEditFile_self, edits_mkdirEdit_self]
  simp [loadEditEntry, lookupAssoc_setAssoc_self, EditEntry.unmarshal_marshal_editEntry]

end History

/-! ## Shared concrete example data -/

def demoExtFs : ExtFs := [("inputs/ball.png", [137, 80])]

def demoSpec : Spec :=
  { model := "m", prompt := "a red ball", imagePaths := ["inputs/ball.png"],
    inputImageNames := ["ball.png"] }

/-- A generator double returning two PNG images. -/
def demoOkGen : Generation.Generator := fun _ =>
  { response := some [{ mimeType := "image/png", data := [9] },
                      { mimeType := "image/png", data := [8] }],
    tokenUsage := { prompt := 100, candidates := 50, total := 150 } }

/-- A generator double returning an error. -/
def demoErrGen : Generation.Generator := fun _ =>
  { error := some "API error" }

def demoSt0 : Generation.RunState :=
  { ctr := 0, now := "2026-01-01T00:00:00Z", fs := ⟨[], []⟩ }

def demoEditSpec : EditSpec :=
  { model := "m", prompt := "edit it", sourceImagePath := "p/x.png",
    entryID := "some-entry", sourceType := "generate",
    sourceOutput := "o.png" }

def demoParent : History.Entry :=
  { id := "parent-id",
    generation := { promptFile := "prompt.txt",
                    inputImages := ["img1.png", "img2.jpg"],
                    contextFile := "context.md",
                    characterFile := "char.md" } }

/-! ## Claim theorems -/

/-- C5: for every Entry (resp. EditEntry), `Save` into a directory followed
by `GetEntryByID` (resp. `GetEditEntryByID`) with the same directory and the
entry's ID returns a value deep-equal to the original for all populated
fields, including zero-value optional fields omitted from the serialized
YAML. -/
theorem c5_save_load_roundtrip :
    (∀ (e : History.Entry) (fs : HistoryFs),
      History.getEntryByID (History.Entry.save e fs) e.id = some e) ∧
    (∀ (ed : History.EditEntry) (d : EntryDir),
      History.getEditEntryByID (History.EditEntry.save ed d) ed.id = some ed) :=
  ⟨History.getEntryByID_save, History.getEditEntryByID_save⟩

theorem getD_append_self (l : SliceHeap) (x : List String) :
    (l ++ [x]).getD l.length [] = x := by
  induction l with
  | nil => rfl
  | cons a as ih => simpa [List.getD] using ih

theorem set_append_lt (l : SliceHeap) (x : List String) (r : Nat)
    (v : List String) (hr : r < l.length) :
    (l ++ [x]).set r v = l.set r v ++ [x] := by
  induction l generalizing r with
  | nil => simp at hr
  | cons a as ih =>
    cases r with
    | zero => simp [List.set]
    | succ r =>
      simp only [List.cons_append, List.set, List.append_eq]
      rw [ih r (by simpa using hr)]

theorem length_set_slice (l : SliceHeap) (r : Nat) (v : List String) :
    (l.set r v).length = l.length := List.length_set l r v

/-- C4: `NewEntryFromSource(parent)` yields a different ID and identical
`PromptFile`/`InputImages`/`ContextFile`/`CharacterFile`; the `InputImages`
slice is a fresh copy (`append([]string{}, ...)`), so a later in-place
mutation of the parent's slice does not change the child's values. -/
theorem c4_regeneration_linkage :
    (∀ (parent : History.Entry) (ctr : Nat) (now : String),
      parent.id ≠ encodeUuid ctr →
      ((History.newEntryFromSource parent ctr now).1.id ≠ parent.id ∧
       (History.newEntryFromSource parent ctr now).1.generation.promptFile
         = parent.generation.promptFile ∧
       (History.newEntryFromSource parent ctr now).1.generation.inputImages
         = parent.generation.inputImages ∧
       (History.newEntryFromSource parent ctr now).1.generation.contextFile
         = parent.generation.contextFile ∧
       (History.newEntryFromSource parent ctr now).1.generation.characterFile
         = parent.generation.characterFile)) ∧
    (∀ (h : SliceHeap) (r : Nat) (v : List String), r < h.length →
      ((allocCopy h r).2 ≠ r ∧
       heapRead (allocCopy h r).1 (allocCopy h r).2 = heapRead h r ∧
       heapRead (heapWrite (allocCopy h r).1 r v) (allocCopy h r).2
         = heapRead h r)) := by
  constructor
  · intro parent ctr now hne
    refine ⟨?_, rfl, rfl, rfl, rfl⟩
    simpa [History.newEntryFromSource, History.newEntry, uuidNewV7] using
      fun hh => hne hh.symm
  · intro h r v hr
    refine ⟨by simp only [allocCopy]; omega, ?_, ?_⟩
    · simp [allocCopy, heapRead, getD_append_self]
    · simp only [allocCopy, heapRead, heapWrite]
      rw [set_append_lt h _ r v hr]
      have hl : (h.set r v).length = h.length := length_set_slice h r v
      rw [← hl, getD_append_self]

/-- Witness for C4 at a concrete parent and heap. -/
theorem c4_regeneration_linkage_witness :
    (History.newEntryFromSource demoParent 0 "t").1.id ≠ demoParent.id ∧
    heapRead (heapWrite (allocCopy [["img1.png"]] 0).1 0 ["modified.png"])
      (allocCopy [["img1.png"]] 0).2 = heapRead [["img1.png"]] 0 :=
  ⟨((c4_regeneration_linkage.1 demoParent 0 "t") (by decide)).1,
   ((c4_regeneration_linkage.2 [["img1.png"]] 0 ["modified.png"])
     (by decide)).2.2⟩

/-- C9: `validateInputImages` returns nil exactly when every path exists,
and any error it returns names all of the missing paths (not just the first
one encountered). -/
theorem c9_validate_input_images :
    ∀ (extFs : ExtFs) (paths : List String),
      (validateInputImages extFs paths = none ↔
        ∀ p ∈ paths, extExists extFs p = true) ∧
      (∀ e, validateInputImages extFs paths = some e →
        e.missingPaths = paths.filter (fun p => !extExists extFs p) ∧
        e.missingPaths ≠ []) := by
  intro extFs paths
  have hiff : paths.filter (fun p => !extExists extFs p) = [] ↔
      ∀ p ∈ paths, extExists extFs p = true := by
    rw [List.filter_eq_nil_iff]
    constructor
    · intro h p hp
      have := h p hp
      simpa using this
    · intro h p hp
      simp [h p hp]
  unfold validateInputImages
  rcases hm : paths.filter (fun p => !extExists extFs p) with _ | ⟨p, rest⟩
  · simp only [hm]
    refine ⟨⟨fun _ => hiff.mp hm, fun _ => trivial⟩, ?_⟩
    intro e he
    exact absurd he (by simp)
  · cases rest with
    | nil =>
      simp only [hm]
      refine ⟨?_, ?_⟩
      · constructor
        · intro h; exact absurd h (by simp)
        · intro hall
          have h0 := hiff.mpr hall
          rw [hm] at h0
          exact absurd h0 (by simp)
      · intro e he
        simp only [Option.some.injEq] at he
        subst he
        simp [ValErr.missingPaths]
    | cons q rest2 =>
      simp only [hm]
      refine ⟨?_, ?_⟩
      · constructor
        · intro h; exact absurd h (by simp)
        · intro hall
          have h0 := hiff.mpr hall
          rw [hm] at h0
          exact absurd h0 (by simp)
      · intro e he
        simp only [Option.some.injEq] at he
        subst he
        simp [ValErr.missingPaths]

/-- Witness for C9: two missing paths are both reported. -/
theorem c9_validate_input_images_witness :
    (ValErr.inputImagesNotFound ["m1.png", "m2.png"]).missingPaths =
      (["m1.png", "m2.png"] : List String).filter
        (fun p => !extExists ([] : ExtFs) p) ∧
    (ValErr.inputImagesNotFound ["m1.png", "m2.png"]).missingPaths ≠ [] :=
  (c9_validate_input_images [] ["m1.png", "m2.png"]).2
    (ValErr.inputImagesNotFound ["m1.png", "m2.png"]) (by decide)

/-- C2: for every Spec that fails validation, `Run` returns the validation
error with the state untouched (no directory created, no file written) and
an empty list of generator calls — the Generator is never invoked, and
`ListEntries` is unchanged. -/
theorem c2_validation_failure_no_side_effects :
    ∀ (gen : Generation.Generator) (spec : Spec) (extFs : ExtFs)
      (st : Generation.RunState) (e : ValErr),
      validateSpec extFs spec = some e →
      Generation.serviceRun gen spec extFs st =
        (.error (.validation e), st, []) := by
  intro gen spec extFs st e h
  unfold Generation.serviceRun
  rw [h]

/-- Witness for C2 at a concrete invalid Spec (bad aspect ratio). -/
theorem c2_validation_failure_witness :
    Generation.serviceRun demoOkGen { demoSpec with aspectRatio := "wide" }
      demoExtFs demoSt0 =
      (.error (.validation (ValErr.invalidAspectRatio "wide")), demoSt0, []) :=
  c2_validation_failure_no_side_effects demoOkGen
    { demoSpec with aspectRatio := "wide" } demoExtFs demoSt0
    (ValErr.invalidAspectRatio "wide") (by decide)

/-! ## Directory-targeting lemmas for the service proofs -/

theorem getDir_updDir_self (fs : HistoryFs) (name : String)
    (f : EntryDir → EntryDir) (hf : ∀ d, (f d).name = d.name) :
    (fs.updDir name f).getDir name = (fs.getDir name).map f :=
  find?_updFirstDir_self _ _ _ hf

theorem getDir_updDir_ne (fs : HistoryFs) (name other : String)
    (f : EntryDir → EntryDir) (hf : ∀ d, (f d).name = d.name)
    (hne : other ≠ name) :
    (fs.updDir name f).getDir other = fs.getDir other :=
  find?_updFirstDir_ne _ _ _ _ hf hne

theorem getDir_foldl_updDir {α : Type} (l : List α)
    (g : α → EntryDir → EntryDir) (hg : ∀ x d, (g x d).name = d.name) :
    ∀ (fs : HistoryFs) (name : String),
    ((l.foldl (fun (acc : HistoryFs) x => acc.updDir name (g x)) fs).getDir
        name) =
      (fs.getDir name).map (fun d => l.foldl (fun d x => g x d) d) := by
  induction l with
  | nil =>
    intro fs name
    simp
  | cons x xs ih =>
    intro fs name
    simp only [List.foldl_cons]
    rw [ih, getDir_updDir_self _ _ _ (hg x), Option.map_map]
    rfl

theorem getDir_foldl_updDir_ne {α : Type} (l : List α)
    (g : α → EntryDir → EntryDir) (hg : ∀ x d, (g x d).name = d.name) :
    ∀ (fs : HistoryFs) (name other : String), other ≠ name →
    ((l.foldl (fun (acc : HistoryFs) x => acc.updDir name (g x)) fs).getDir
        other) =
      fs.getDir other := by
  induction l with
  | nil => intro fs name other _; rfl
  | cons x xs ih =>
    intro fs name other hne
    simp only [List.foldl_cons]
    rw [ih _ _ _ hne, getDir_updDir_ne _ _ _ _ (hg x) hne]

theorem mkdirEntry_of_isSome (fs : HistoryFs) (name : String)
    (h : (fs.getDir name).isSome) : fs.mkdirEntry name = fs := by
  unfold HistoryFs.mkdirEntry
  obtain ⟨d, hd⟩ := Option.isSome_iff_exists.mp h
  have hmem := List.mem_of_find?_eq_some hd
  have hp := List.find?_some hd
  rw [if_pos (List.any_eq_true.mpr ⟨d, hmem, hp⟩)]

theorem mkdirEdit_name (d : EntryDir) (n : String) :
    (d.mkdirEdit n).name = d.name := by
  simp only [EntryDir.mkdirEdit]
  split <;> rfl

theorem mkdirEdit_files (d : EntryDir) (n : String) :
    (d.mkdirEdit n).files = d.files := by
  simp only [EntryDir.mkdirEdit]
  split <;> rfl

theorem editSave_name (ed : History.EditEntry) (d : EntryDir) :
    (History.EditEntry.save ed d).name = d.name := by
  unfold History.EditEntry.save EntryDir.writeEditFile
  exact mkdirEdit_name d ed.id

theorem editSavePrompt_name (ed : History.EditEntry) (d : EntryDir) (p : String) :
    (History.EditEntry.savePrompt ed d p).name = d.name := rfl

theorem editCleanup_name (ed : History.EditEntry) (d : EntryDir) :
    (History.EditEntry.cleanup ed d).name = d.name := rfl

theorem writeEditFile_name (d : EntryDir) (en fn : String) (v : FileData) :
    (d.writeEditFile en fn v).name = d.name := rfl

/-! ### Explicit traces of `Service.Edit` -/

/-- The generator parameters `Service.Edit` builds: exactly one input image
— the source — and no aspect ratio or image size. -/
def editParams (spec : EditSpec) : Gemini.Params :=
  { model := spec.model, prompt := spec.prompt,
    imagePaths := [spec.sourceImagePath] }

/-- The in-memory edit entry `Service.Edit` builds before calling the
generator. -/
def editEntryRec (spec : EditSpec) (st : Generation.RunState) :
    History.EditEntry :=
  { id := encodeUuid st.ctr, createdAt := st.now,
    source := { type := spec.sourceType, editID := spec.sourceEditID,
                output := spec.sourceOutput },
    generation := { promptFile := History.EditPromptFile } }

/-- The edit entry as finalized after a successful generator call. -/
def editEntryRecDone (gen : Generation.Generator) (spec : EditSpec)
    (st : Generation.RunState) (saved : List (String × List Nat)) :
    History.EditEntry :=
  { editEntryRec spec st with result :=
      { success := true, outputImages := saved.map (fun nv => nv.1),
        tokenUsage := (gen (editParams spec)).tokenUsage,
        errorMessage := "" } }

/-- The filesystem after `Service.Edit` has created the edit directory and
written the prompt (the write-ahead portion shared by all branches). -/
def editPreFs (spec : EditSpec) (st : Generation.RunState) : HistoryFs :=
  ((st.fs.mkdirEntry spec.entryID).updDir spec.entryID
      (fun d => d.mkdirEdit (encodeUuid st.ctr))).updDir spec.entryID
    (fun d => (editEntryRec spec st).savePrompt d spec.prompt)

/-- The filesystem after a failed edit: only `edits/<edit-id>/` removed. -/
def editFailFs (spec : EditSpec) (st : Generation.RunState) : HistoryFs :=
  (editPreFs spec st).updDir spec.entryID
    (fun d => (editEntryRec spec st).cleanup d)

/-- The filesystem after a successful edit. -/
def editFinalFs (gen : Generation.Generator) (spec : EditSpec)
    (st : Generation.RunState) (saved : List (String × List Nat)) : HistoryFs :=
  (saved.foldl
      (fun (acc : HistoryFs) nv => acc.updDir spec.entryID
        (fun d => d.writeEditFile (encodeUuid st.ctr) nv.1 (.bin nv.2)))
      (editPreFs spec st)).updDir spec.entryID
    (fun d => (editEntryRecDone gen spec st saved).save d)

theorem serviceEdit_err_eq (gen : Generation.Generator) (spec : EditSpec)
    (st : Generation.RunState) (msg : String)
    (herr : (gen (editParams spec)).error = some msg) :
    Generation.serviceEdit gen spec st =
      (.error (.editFailed msg),
       { st with ctr := st.ctr + 1, fs := editFailFs spec st },
       [editParams spec]) := by
  unfold editParams at herr
  unfold Generation.serviceEdit
  simp only [herr]
  rfl

theorem serviceEdit_saveErr_eq (gen : Generation.Generator) (spec : EditSpec)
    (st : Generation.RunState) (msg : String)
    (herr : (gen (editParams spec)).error = none)
    (hsv : Gemini.saveImages (gen (editParams spec)).response
      (encodeUuid (st.ctr + 1)) = .error msg) :
    Generation.serviceEdit gen spec st =
      (.error (.saveImagesFailed msg),
       { st with ctr := st.ctr + 2, fs := editFailFs spec st },
       [editParams spec]) := by
  unfold editParams at herr hsv
  unfold Generation.serviceEdit
  simp only [herr, History.newEditEntry, uuidNewV7, hsv]
  rfl

theorem serviceEdit_ok_eq (gen : Generation.Generator) (spec : EditSpec)
    (st : Generation.RunState) (saved : List (String × List Nat))
    (herr : (gen (editParams spec)).error = none)
    (hsv : Gemini.saveImages (gen (editParams spec)).response
      (encodeUuid (st.ctr + 1)) = .ok saved) :
    Generation.serviceEdit gen spec st =
      (.ok { editID := encodeUuid st.ctr,
             outputImages := saved.map (fun nv => nv.1) },
       { st with ctr := st.ctr + 2, fs := editFinalFs gen spec st saved },
       [editParams spec]) := by
  unfold editParams at herr hsv
  unfold Generation.serviceEdit
  simp only [herr, History.newEditEntry, uuidNewV7, hsv]
  rfl

/-- Inversion: a successful `Service.Edit` call must have gone through the
generator-success and image-save-success branches. -/
theorem serviceEdit_ok_inv (gen : Generation.Generator) (spec : EditSpec)
    (st : Generation.RunState) (r : Generation.EditResult)
    (st' : Generation.RunState) (calls : List Gemini.Params)
    (h : Generation.serviceEdit gen spec st = (.ok r, st', calls)) :
    ∃ saved, (gen (editParams spec)).error = none ∧
      Gemini.saveImages (gen (editParams spec)).response
        (encodeUuid (st.ctr + 1)) = .ok saved ∧
      r = { editID := encodeUuid st.ctr,
            outputImages := saved.map (fun nv => nv.1) } ∧
      st' = { st with ctr := st.ctr + 2, fs := editFinalFs gen spec st saved } ∧
      calls = [editParams spec] := by
  rcases herr : (gen (editParams spec)).error with _ | msg
  · rcases hsv : Gemini.saveImages (gen (editParams spec)).response
        (encodeUuid (st.ctr + 1)) with msg2 | saved
    · rw [serviceEdit_saveErr_eq gen spec st msg2 herr hsv] at h
      exact absurd h (by simp)
    · rw [serviceEdit_ok_eq gen spec st saved herr hsv] at h
      simp only [Prod.mk.injEq, Except.ok.injEq] at h
      exact ⟨saved, rfl, rfl, h.1.symm, h.2.1.symm, h.2.2.symm⟩
  · rw [serviceEdit_err_eq gen spec st msg herr] at h
    exact absurd h (by simp)

/-- After a successful `Service.Edit`, the parent directory holds the
persisted edit entry under the new edit ID. -/
theorem serviceEdit_ok_meta (gen : Generation.Generator) (spec : EditSpec)
    (st : Generation.RunState) (r : Generation.EditResult)
    (st' : Generation.RunState) (calls : List Gemini.Params)
    (h : Generation.serviceEdit gen spec st = (.ok r, st', calls)) :
    ∃ d saved, st'.fs.getDir spec.entryID = some d ∧
      History.getEditEntryByID d r.editID =
        some (editEntryRecDone gen spec st saved) := by
  obtain ⟨saved, herr, hsv, hr, hst, hcalls⟩ :=
    serviceEdit_ok_inv gen spec st r st' calls h
  subst hr hst
  unfold editFinalFs
  rw [getDir_updDir_self _ _ _ (fun d => editSave_name _ d),
    getDir_foldl_updDir _ _ (fun nv d => writeEditFile_name d _ _ _)]
  unfold editPreFs
  rw [getDir_updDir_self _ _ _ (fun d => editSavePrompt_name _ d _),
    getDir_updDir_self _ _ _ (fun d => mkdirEdit_name d _),
    getDir_mkdirEntry_self]
  simp only [Option.map_some']
  exact ⟨_, saved, rfl, History.getEditEntryByID_save _ _⟩

/-- C10: `Service.Edit` ignores the EditSpec's AspectRatio and ImageSize —
its behaviour is identical for any values of the two fields, the Params it
passes to the Generator carry empty AspectRatio/ImageSize (and exactly the
source image), and the persisted EditEntry's Generation records only
`PromptFile = "edit-prompt.txt"`. -/
theorem c10_edit_ignores_aspect_size :
    (∀ (gen : Generation.Generator) (spec : EditSpec)
        (st : Generation.RunState) (a b : String),
      Generation.serviceEdit gen spec st =
        Generation.serviceEdit gen
          { spec with aspectRatio := a, imageSize := b } st) ∧
    (∀ (gen : Generation.Generator) (spec : EditSpec)
        (st : Generation.RunState),
      (Generation.serviceEdit gen spec st).2.2 = [editParams spec] ∧
      (editParams spec).aspectRatio = "" ∧
      (editParams spec).imageSize = "" ∧
      (editParams spec).imagePaths = [spec.sourceImagePath]) ∧
    (∀ (gen : Generation.Generator) (spec : EditSpec)
        (st : Generation.RunState) (r : Generation.EditResult)
        (st' : Generation.RunState) (calls : List Gemini.Params),
      Generation.serviceEdit gen spec st = (.ok r, st', calls) →
      ∃ d ed, st'.fs.getDir spec.entryID = some d ∧
        History.getEditEntryByID d r.editID = some ed ∧
        ed.generation = { promptFile := History.EditPromptFile,
                          aspectRatio := "", imageSize := "" }) := by
  refine ⟨fun gen spec st a b => rfl, fun gen spec st => ⟨?_, rfl, rfl, rfl⟩,
    fun gen spec st r st' calls h => ?_⟩
  · rcases herr : (gen (editParams spec)).error with _ | msg
    · rcases hsv : Gemini.saveImages (gen (editParams spec)).response
          (encodeUuid (st.ctr + 1)) with msg2 | saved
      · rw [serviceEdit_saveErr_eq gen spec st msg2 herr hsv]
      · rw [serviceEdit_ok_eq gen spec st saved herr hsv]
    · rw [serviceEdit_err_eq gen spec st msg herr]
  · obtain ⟨d, saved, h1, h2⟩ := serviceEdit_ok_meta gen spec st r st' calls h
    exact ⟨d, _, h1, h2, rfl⟩

/-- Witness for C10 at a concrete successful edit. -/
theorem c10_edit_ignores_aspect_size_witness :
    ∃ d ed,
      (Generation.serviceEdit demoOkGen demoEditSpec demoSt0).2.1.fs.getDir
        demoEditSpec.entryID = some d ∧
      History.getEditEntryByID d (encodeUuid 0) = some ed ∧
      ed.generation = { promptFile := History.EditPromptFile,
                        aspectRatio := "", imageSize := "" } :=
  c10_edit_ignores_aspect_size.2.2 demoOkGen demoEditSpec demoSt0
    { editID := encodeUuid 0,
      outputImages := [Gemini.outputFileName (encodeUuid 1) 0 "image/png",
                       Gemini.outputFileName (encodeUuid 1) 1 "image/png"] }
    (Generation.serviceEdit demoOkGen demoEditSpec demoSt0).2.1
    (Generation.serviceEdit demoOkGen demoEditSpec demoSt0).2.2
    rfl

/-- C6: `Source.Type` is `"edit"` exactly when the edit was resolved from
another EditEntry's output (the `--edit-latest`/`--edit-id` branch of the
CLI resolution), `Source.EditID` stays empty when the type is
`"generate"`, and `Service.Edit` persists the resolved `Source` verbatim. -/
theorem c6_edit_chain_integrity :
    (∀ (entryRec : EntryDir) (genEntry : History.Entry) (editLatest : Bool)
        (editID ty eid out : String),
      resolveEditSource entryRec genEntry editLatest editID =
        .ok (ty, eid, out) →
      ((ty = "edit" ↔ (editLatest = true ∨ editID ≠ "")) ∧
       (ty = "generate" → eid = ""))) ∧
    (∀ (gen : Generation.Generator) (spec : EditSpec)
        (st : Generation.RunState) (r : Generation.EditResult)
        (st' : Generation.RunState) (calls : List Gemini.Params),
      Generation.serviceEdit gen spec st = (.ok r, st', calls) →
      ∃ d ed, st'.fs.getDir spec.entryID = some d ∧
        History.getEditEntryByID d r.editID = some ed ∧
        ed.source = { type := spec.sourceType, editID := spec.sourceEditID,
                      output := spec.sourceOutput }) := by
  constructor
  · intro entryRec genEntry editLatest editID ty eid out h
    unfold resolveEditSource at h
    split at h
    · rename_i hcond
      split at h
      · exact absurd h (by simp)
      · split at h
        · exact absurd h (by simp)
        · rename_i ed o rest heq2
          simp only [Except.ok.injEq, Prod.mk.injEq] at h
          obtain ⟨hty, hei, hout⟩ := h
          subst hty hei hout
          refine ⟨⟨fun _ => ?_, fun _ => rfl⟩, fun hg => absurd hg (by decide)⟩
          simpa using hcond
    · rename_i hcond
      split at h
      · exact absurd h (by simp)
      · rename_i o rest heq2
        simp only [Except.ok.injEq, Prod.mk.injEq] at h
        obtain ⟨hty, hei, hout⟩ := h
        subst hty hei hout
        refine ⟨⟨fun hg => absurd hg (by decide), fun hor => ?_⟩,
          fun _ => rfl⟩
        exact absurd (by simpa using hor) hcond
  · intro gen spec st r st' calls h
    obtain ⟨d, saved, h1, h2⟩ := serviceEdit_ok_meta gen spec st r st' calls h
    exact ⟨d, _, h1, h2, rfl⟩

/-- Witness for C6: a concrete resolution from a generation output and a
concrete persisted edit. -/
theorem c6_edit_chain_integrity_witness :
    (("generate" : String) = "edit" ↔ (false = true ∨ ("" : String) ≠ "")) ∧
    (("generate" : String) = "generate" → ("" : String) = "") :=
  c6_edit_chain_integrity.1 ⟨"e1", [], false, []⟩
    { id := "e1", result := { outputImages := ["o.png"] } } false ""
    "generate" "" "o.png" rfl

theorem updFirstEdit_append_fresh (l : List EditDir) (name : String)
    (f : EditDir → EditDir) (d : EditDir)
    (hl : ∀ x ∈ l, x.name ≠ name) (hd : d.name = name) :
    updFirstEdit (l ++ [d]) name f = l ++ [f d] := by
  induction l with
  | nil => simp [updFirstEdit, hd]
  | cons x xs ih =>
    have hx : x.name ≠ name := hl x (by simp)
    simp only [List.cons_append, updFirstEdit, if_neg hx, List.append_eq]
    rw [ih (fun y hy => hl y (by simp [hy]))]

theorem filter_ne_append_edit (l : List EditDir) (d : EditDir) (name : String)
    (hl : ∀ x ∈ l, x.name ≠ name) (hd : d.name = name) :
    (l ++ [d]).filter (fun x => !(x.name == name)) = l := by
  induction l with
  | nil => simp [List.filter, hd]
  | cons x xs ih =>
    have hx : x.name ≠ name := hl x (by simp)
    have hbeq : (x.name == name) = false := by
      rw [beq_eq_false_iff_ne]; exact hx
    simp only [List.cons_append, List.filter, hbeq, Bool.not_false,
      List.append_eq]
    rw [ih (fun y hy => hl y (by simp [hy]))]

theorem mkdirEdit_fresh (d0 : EntryDir) (name : String)
    (h : ∀ x ∈ d0.edits, x.name ≠ name) :
    d0.mkdirEdit name =
      { d0 with editsDirExists := true,
                edits := d0.edits ++ [⟨name, []⟩] } := by
  unfold EntryDir.mkdirEdit
  rw [if_neg]
  simp only [List.any_eq_true, not_exists, not_and]
  intro x hx
  simpa using h x hx

/-- C8: `Service.Edit` invokes the Generator with exactly one input image
path (the SourceImagePath), and when the Generator fails it removes only
`edits/<edit-id>/` under the parent entry: the parent's files and all its
previously existing edits are unchanged, and every other entry directory is
untouched. -/
theorem c8_edit_failure_frame :
    ∀ (gen : Generation.Generator) (spec : EditSpec)
      (st : Generation.RunState) (d0 : EntryDir) (msg : String),
      st.fs.getDir spec.entryID = some d0 →
      (gen (editParams spec)).error = some msg →
      (∀ ed ∈ d0.edits, ed.name ≠ encodeUuid st.ctr) →
      (Generation.serviceEdit gen spec st).1 = .error (.editFailed msg) ∧
      (Generation.serviceEdit gen spec st).2.2 = [editParams spec] ∧
      (editParams spec).imagePaths = [spec.sourceImagePath] ∧
      (∃ d1, (Generation.serviceEdit gen spec st).2.1.fs.getDir spec.entryID
          = some d1 ∧ d1.files = d0.files ∧ d1.edits = d0.edits) ∧
      (∀ other, other ≠ spec.entryID →
        (Generation.serviceEdit gen spec st).2.1.fs.getDir other =
          st.fs.getDir other) := by
  intro gen spec st d0 msg hd0 herr hfresh
  rw [serviceEdit_err_eq gen spec st msg herr]
  refine ⟨rfl, rfl, rfl, ?_, ?_⟩
  · unfold editFailFs editPreFs
    rw [getDir_updDir_self _ _ _ (fun d => editCleanup_name _ d),
      getDir_updDir_self _ _ _ (fun d => editSavePrompt_name _ d _),
      getDir_updDir_self _ _ _ (fun d => mkdirEdit_name d _),
      mkdirEntry_of_isSome st.fs spec.entryID (by rw [hd0]; rfl), hd0]
    simp only [Option.map_some']
    refine ⟨_, rfl, ?_, ?_⟩
    · rw [mkdirEdit_fresh d0 _ hfresh]
      rfl
    · show ((((d0.mkdirEdit (encodeUuid st.ctr)).writeEditFile
        (encodeUuid st.ctr) History.EditPromptFile
        (.text spec.prompt))).removeEdit (encodeUuid st.ctr)).edits = d0.edits
      rw [mkdirEdit_fresh d0 _ hfresh]
      unfold EntryDir.writeEditFile EntryDir.removeEdit
      simp only []
      rw [updFirstEdit_append_fresh d0.edits _ _ _ hfresh rfl]
      exact filter_ne_append_edit d0.edits _ _ hfresh rfl
  · intro other hne
    unfold editFailFs editPreFs
    rw [getDir_updDir_ne _ _ _ _ (fun d => editCleanup_name _ d) hne,
      getDir_updDir_ne _ _ _ _ (fun d => editSavePrompt_name _ d _) hne,
      getDir_updDir_ne _ _ _ _ (fun d => mkdirEdit_name d _) hne,
      mkdirEntry_of_isSome st.fs spec.entryID (by rw [hd0]; rfl)]

def demoEntryDir : EntryDir :=
  { name := "some-entry", files := [("prompt.txt", .text "p")],
    editsDirExists := true, edits := [⟨"prior-edit", []⟩] }

def demoStWithEntry : Generation.RunState :=
  { ctr := 0, now := "2026-01-01T00:00:00Z",
    fs := ⟨[demoEntryDir], []⟩ }

/-- Witness for C8 at a concrete parent entry with one prior edit. -/
theorem c8_edit_failure_frame_witness :
    (Generation.serviceEdit demoErrGen demoEditSpec demoStWithEntry).1 =
      .error (.editFailed "API error") ∧
    (Generation.serviceEdit demoErrGen demoEditSpec demoStWithEntry).2.2 =
      [editParams demoEditSpec] ∧
    (editParams demoEditSpec).imagePaths = [demoEditSpec.sourceImagePath] ∧
    (∃ d1, (Generation.serviceEdit demoErrGen demoEditSpec
        demoStWithEntry).2.1.fs.getDir demoEditSpec.entryID = some d1 ∧
      d1.files = demoEntryDir.files ∧ d1.edits = demoEntryDir.edits) ∧
    (∀ other, other ≠ demoEditSpec.entryID →
      (Generation.serviceEdit demoErrGen demoEditSpec
        demoStWithEntry).2.1.fs.getDir other =
        demoStWithEntry.fs.getDir other) :=
  c8_edit_failure_frame demoErrGen demoEditSpec demoStWithEntry demoEntryDir
    "API error" rfl rfl (by decide)

/-! ### Explicit traces of `Service.Run` -/

/-- The generator parameters `Service.Run` builds. -/
def runParams (spec : Spec) : Gemini.Params :=
  { model := spec.model, prompt := spec.prompt,
    imagePaths := spec.imagePaths, aspectRatio := spec.aspectRatio,
    imageSize := spec.imageSize }

/-- The in-memory entry `Service.Run` builds (the `NewEntry` and
`NewEntryFromSource` paths coincide here because the source stub carries
only an ID). -/
def runEntryRec (spec : Spec) (st : Generation.RunState) : History.Entry :=
  { id := encodeUuid st.ctr, createdAt := st.now,
    generation := { promptFile := History.PromptFile,
                    inputImages := spec.inputImageNames } }

/-- The filesystem after the write-ahead phase of `Run` (entry directory
created, prompt written, input images copied). -/
def runPreFs (spec : Spec) (extFs : ExtFs) (st : Generation.RunState) :
    HistoryFs :=
  (runEntryRec spec st).saveInputImages
    ((runEntryRec spec st).savePrompt
      (st.fs.mkdirEntry (encodeUuid st.ctr)) spec.prompt)
    extFs spec.imagePaths

/-- The entry as finalized after a successful generation. -/
def runEntryDone (gen : Generation.Generator) (spec : Spec)
    (st : Generation.RunState) (saved : List (String × List Nat)) :
    History.Entry :=
  { runEntryRec spec st with result :=
      { success := true, outputImages := saved.map (fun nv => nv.1),
        tokenUsage := (gen (runParams spec)).tokenUsage,
        errorMessage := "" } }

/-- The filesystem after a fully successful `Run`. -/
def runFinalFs (gen : Generation.Generator) (spec : Spec) (extFs : ExtFs)
    (st : Generation.RunState) (saved : List (String × List Nat)) : HistoryFs :=
  (runEntryDone gen spec st saved).save
    (saved.foldl
      (fun (acc : HistoryFs) nv =>
        acc.writeEntryFile (encodeUuid st.ctr) nv.1 (.bin nv.2))
      (runPreFs spec extFs st))

theorem serviceRun_err_eq (gen : Generation.Generator) (spec : Spec)
    (extFs : ExtFs) (st : Generation.RunState) (msg : String)
    (hval : validateSpec extFs spec = none)
    (herr : (gen (runParams spec)).error = some msg) :
    Generation.serviceRun gen spec extFs st =
      (.error (.generationFailed msg),
       { st with ctr := st.ctr + 1,
                 fs := (runEntryRec spec st).cleanup (runPreFs spec extFs st) },
       [runParams spec]) := by
  unfold runParams at herr
  unfold Generation.serviceRun
  simp only [hval, History.newEntryFromSource, History.newEntry, uuidNewV7,
    ite_self, herr]
  rfl

theorem serviceRun_saveErr_eq (gen : Generation.Generator) (spec : Spec)
    (extFs : ExtFs) (st : Generation.RunState) (msg : String)
    (hval : validateSpec extFs spec = none)
    (herr : (gen (runParams spec)).error = none)
    (hsv : Gemini.saveImages (gen (runParams spec)).response
      (encodeUuid (st.ctr + 1)) = .error msg) :
    Generation.serviceRun gen spec extFs st =
      (.error (.saveImagesFailed msg),
       { st with ctr := st.ctr + 2,
                 fs := (runEntryRec spec st).cleanup (runPreFs spec extFs st) },
       [runParams spec]) := by
  unfold runParams at herr hsv
  unfold Generation.serviceRun
  simp only [hval, History.newEntryFromSource, History.newEntry, uuidNewV7,
    ite_self, herr, hsv]
  rfl

theorem serviceRun_ok_eq (gen : Generation.Generator) (spec : Spec)
    (extFs : ExtFs) (st : Generation.RunState)
    (saved : List (String × List Nat))
    (hval : validateSpec extFs spec = none)
    (herr : (gen (runParams spec)).error = none)
    (hsv : Gemini.saveImages (gen (runParams spec)).response
      (encodeUuid (st.ctr + 1)) = .ok saved) :
    Generation.serviceRun gen spec extFs st =
      (.ok { entryID := encodeUuid st.ctr,
             outputImages := saved.map (fun nv => nv.1) },
       { st with ctr := st.ctr + 2, fs := runFinalFs gen spec extFs st saved },
       [runParams spec]) := by
  unfold runParams at herr hsv
  unfold Generation.serviceRun
  simp only [hval, History.newEntryFromSource, History.newEntry, uuidNewV7,
    ite_self, herr, hsv]
  rfl

/-! ### Rollback restores the filesystem exactly -/

theorem mkdirEntry_fresh (fs : HistoryFs) (name : String)
    (h : ∀ d ∈ fs.dirs, d.name ≠ name) :
    fs.mkdirEntry name = { fs with dirs := fs.dirs ++ [emptyEntryDir name] } := by
  unfold HistoryFs.mkdirEntry
  rw [if_neg]
  simp only [List.any_eq_true, not_exists, not_and]
  intro x hx
  simpa using h x hx

theorem updFirstDir_append_fresh (l : List EntryDir) (name : String)
    (f : EntryDir → EntryDir) (d : EntryDir)
    (hl : ∀ x ∈ l, x.name ≠ name) (hd : d.name = name) :
    updFirstDir (l ++ [d]) name f = l ++ [f d] := by
  induction l with
  | nil => simp [updFirstDir, hd]
  | cons x xs ih =>
    have hx : x.name ≠ name := hl x (by simp)
    simp only [List.cons_append, updFirstDir, if_neg hx, List.append_eq]
    rw [ih (fun y hy => hl y (by simp [hy]))]

theorem filter_ne_append_dir (l : List EntryDir) (d : EntryDir) (name : String)
    (hl : ∀ x ∈ l, x.name ≠ name) (hd : d.name = name) :
    (l ++ [d]).filter (fun x => !(x.name == name)) = l := by
  induction l with
  | nil => simp [List.filter, hd]
  | cons x xs ih =>
    have hx : x.name ≠ name := hl x (by simp)
    have hbeq : (x.name == name) = false := by
      rw [beq_eq_false_iff_ne]; exact hx
    simp only [List.cons_append, List.filter, hbeq, Bool.not_false,
      List.append_eq]
    rw [ih (fun y hy => hl y (by simp [hy]))]

/-- `SaveInputImages` only touches the (freshly appended, uniquely named)
entry directory. -/
theorem saveInputImages_shape (e : History.Entry) (extFs : ExtFs) :
    ∀ (paths : List String) (l : List EntryDir) (d : EntryDir)
      (loose : List String),
    (∀ x ∈ l, x.name ≠ e.id) → d.name = e.id →
    ∃ d2, History.Entry.saveInputImages e ⟨l ++ [d], loose⟩ extFs paths =
        ⟨l ++ [d2], loose⟩ ∧ d2.name = e.id := by
  intro paths
  induction paths with
  | nil => intro l d loose hl hd; exact ⟨d, rfl, hd⟩
  | cons p ps ih =>
    intro l d loose hl hd
    unfold History.Entry.saveInputImages
    simp only [List.foldl_cons]
    rcases hp : extLookup extFs p with _ | data
    · have := ih l d loose hl hd
      unfold History.Entry.saveInputImages at this
      simpa [hp] using this
    · have hw : HistoryFs.writeEntryFile ⟨l ++ [d], loose⟩ e.id
          (filepathBase p) (.bin data) =
          ⟨l ++ [{ d with files := (setAssoc d.files (filepathBase p) (.bin data)) }], loose⟩ := by
        unfold HistoryFs.writeEntryFile
        simp only [HistoryFs.mk.injEq, and_true]
        exact updFirstDir_append_fresh l e.id _ d hl hd
      have := ih l { d with files := (setAssoc d.files (filepathBase p) (.bin data)) } loose hl hd
      unfold History.Entry.saveInputImages at this
      simpa [hp, hw] using this

/-- The write-ahead phase appends exactly one fresh directory. -/
theorem runPreFs_shape (spec : Spec) (extFs : ExtFs)
    (st : Generation.RunState)
    (hfresh : ∀ d ∈ st.fs.dirs, d.name ≠ encodeUuid st.ctr) :
    ∃ d2, runPreFs spec extFs st = ⟨st.fs.dirs ++ [d2], st.fs.loose⟩ ∧
      d2.name = encodeUuid st.ctr := by
  unfold runPreFs History.Entry.savePrompt
  rw [mkdirEntry_fresh st.fs _ hfresh]
  have hw : HistoryFs.writeEntryFile
      { st.fs with dirs := st.fs.dirs ++ [emptyEntryDir (encodeUuid st.ctr)] }
      (runEntryRec spec st).id History.PromptFile (.text spec.prompt) =
      ⟨st.fs.dirs ++ [{ emptyEntryDir (encodeUuid st.ctr) with files := (setAssoc [] History.PromptFile (.text spec.prompt)) }], st.fs.loose⟩ := by
    unfold HistoryFs.writeEntryFile
    simp only [HistoryFs.mk.injEq, and_true]
    exact updFirstDir_append_fresh st.fs.dirs _ _ _ hfresh rfl
  rw [hw]
  exact saveInputImages_shape (runEntryRec spec st) extFs spec.imagePaths
    st.fs.dirs _ st.fs.loose hfresh rfl

/-- Rolling back the write-ahead phase restores the filesystem exactly. -/
theorem cleanup_runPreFs (spec : Spec) (extFs : ExtFs)
    (st : Generation.RunState)
    (hfresh : ∀ d ∈ st.fs.dirs, d.name ≠ encodeUuid st.ctr) :
    (runEntryRec spec st).cleanup (runPreFs spec extFs st) = st.fs := by
  obtain ⟨d2, heq, hname⟩ := runPreFs_shape spec extFs st hfresh
  rw [heq]
  show HistoryFs.mk
    (List.filter (fun x => !(x.name == encodeUuid st.ctr))
      (st.fs.dirs ++ [d2])) st.fs.loose = st.fs
  rw [filter_ne_append_dir st.fs.dirs d2 _ hfresh hname]

/-- C1: for every Spec that passes validation, if the Generator call fails
then `Run` removes the just-created entry directory and returns a wrapped
`GenerationFailed` error, so the filesystem — and hence `ListEntries` — is
exactly what it was before the call. -/
theorem c1_generator_failure_rollback :
    ∀ (gen : Generation.Generator) (spec : Spec) (extFs : ExtFs)
      (st : Generation.RunState) (msg : String),
      validateSpec extFs spec = none →
      (gen (runParams spec)).error = some msg →
      (∀ d ∈ st.fs.dirs, d.name ≠ encodeUuid st.ctr) →
      Generation.serviceRun gen spec extFs st =
        (.error (.generationFailed msg), { st with ctr := st.ctr + 1 },
         [runParams spec]) ∧
      History.listEntries (Generation.serviceRun gen spec extFs st).2.1.fs =
        History.listEntries st.fs := by
  intro gen spec extFs st msg hval herr hfresh
  have heq := serviceRun_err_eq gen spec extFs st msg hval herr
  rw [cleanup_runPreFs spec extFs st hfresh] at heq
  refine ⟨heq, ?_⟩
  rw [heq]

/-- Witness for C1: a concrete validated Spec whose generator fails. -/
theorem c1_generator_failure_rollback_witness :
    Generation.serviceRun demoErrGen demoSpec demoExtFs demoSt0 =
      (.error (.generationFailed "API error"),
       { demoSt0 with ctr := 1 }, [runParams demoSpec]) ∧
    History.listEntries
        (Generation.serviceRun demoErrGen demoSpec demoExtFs demoSt0).2.1.fs =
      History.listEntries demoSt0.fs :=
  c1_generator_failure_rollback demoErrGen demoSpec demoExtFs demoSt0
    "API error" (by decide) rfl (by decide)

/-! ### Ledger invariant: every directory is a well-formed entry record
with ID below the counter and names strictly sorted -/

/-- The entry a directory loads (directories in ledger states always
load). -/
def loadEntryD (d : EntryDir) : History.Entry :=
  (History.loadEntry d).getD {}

/-- A directory whose name is a valid UUID and whose `meta.yaml` parses to
an entry carrying the directory's own name as ID. -/
def DirGood (d : EntryDir) : Prop :=
  validUuid d.name = true ∧
    History.loadEntry d = some (loadEntryD d) ∧ (loadEntryD d).id = d.name

/-- Invariant of a history directory produced by successful runs. -/
def FsLedger (fs : HistoryFs) (bound : String) : Prop :=
  (∀ d ∈ fs.dirs, DirGood d ∧ strLt d.name bound = true) ∧
    List.Pairwise (fun a b => strLt a.name b.name = true) fs.dirs

theorem filterMap_loadEntry_eq_map (l : List EntryDir)
    (h : ∀ d ∈ l, History.loadEntry d = some (loadEntryD d)) :
    l.filterMap History.loadEntry = l.map loadEntryD := by
  induction l with
  | nil => rfl
  | cons d ds ih =>
    rw [List.filterMap_cons, h d (by simp), List.map_cons,
      ih (fun x hx => h x (by simp [hx]))]

/-- Under the ledger invariant `ListEntries` returns the directories'
entries in directory order, and their IDs are the directory names. -/
theorem listEntries_ledger (fs : HistoryFs) (bound : String)
    (h : FsLedger fs bound) :
    History.listEntries fs = fs.dirs.map loadEntryD ∧
    (History.listEntries fs).map (fun e => e.id) =
      fs.dirs.map (fun d => d.name) := by
  obtain ⟨hgood, hpair⟩ := h
  have hfilter : fs.dirs.filter (fun d => validUuid d.name) = fs.dirs :=
    List.filter_eq_self.mpr (fun d hd => (hgood d hd).1.1)
  have hids : ∀ d ∈ fs.dirs, (loadEntryD d).id = d.name :=
    fun d hd => (hgood d hd).1.2.2
  have hmap : fs.dirs.filterMap History.loadEntry = fs.dirs.map loadEntryD :=
    filterMap_loadEntry_eq_map fs.dirs (fun d hd => (hgood d hd).1.2.1)
  have hsorted : List.Sorted
      (fun a b => strLt a.id b.id = true) (fs.dirs.map loadEntryD) := by
    rw [List.Sorted, List.pairwise_map]
    refine List.Pairwise.imp_of_mem ?_ hpair
    intro a b ha hb hab
    rw [hids a ha, hids b hb]
    exact hab
  have hle : History.listEntries fs = fs.dirs.map loadEntryD := by
    unfold History.listEntries
    rw [hfilter, hmap]
    exact hsorted.insertionSort_eq
  refine ⟨hle, ?_⟩
  rw [hle, List.map_map]
  exact List.map_congr_left hids

/-- Generic shape lemma: a fold of writes into the freshly appended
directory keeps the rest of the filesystem intact. -/
theorem foldl_write_shape (name : String) (items : List (String × List Nat)) :
    ∀ (l : List EntryDir) (d : EntryDir) (loose : List String),
    (∀ x ∈ l, x.name ≠ name) → d.name = name →
    ∃ d2, items.foldl
        (fun (acc : HistoryFs) nv =>
          acc.writeEntryFile name nv.1 (.bin nv.2)) ⟨l ++ [d], loose⟩ =
        ⟨l ++ [d2], loose⟩ ∧ d2.name = name := by
  induction items with
  | nil => intro l d loose hl hd; exact ⟨d, rfl, hd⟩
  | cons nv rest ih =>
    intro l d loose hl hd
    simp only [List.foldl_cons]
    have hw : HistoryFs.writeEntryFile ⟨l ++ [d], loose⟩ name nv.1
        (.bin nv.2) =
        ⟨l ++ [{ d with files := (setAssoc d.files nv.1 (.bin nv.2)) }], loose⟩ := by
      unfold HistoryFs.writeEntryFile
      simp only [HistoryFs.mk.injEq, and_true]
      exact updFirstDir_append_fresh l name _ d hl hd
    rw [hw]
    exact ih l _ loose hl hd

theorem getDir_append_fresh (l : List EntryDir) (d : EntryDir)
    (loose : List String) (n : String)
    (hl : ∀ x ∈ l, x.name ≠ n) (hd : d.name = n) :
    HistoryFs.getDir ⟨l ++ [d], loose⟩ n = some d := by
  unfold HistoryFs.getDir
  rw [List.find?_append]
  have hnone : l.find? (fun x => x.name == n) = none := by
    rw [List.find?_eq_none]
    intro x hx hb
    exact hl x hx (by simpa using hb)
  simp [hnone, List.find?_cons, hd]

/-- The filesystem after a successful run appends exactly one directory,
holding the finalized entry's metadata. -/
theorem runFinalFs_shape (gen : Generation.Generator) (spec : Spec)
    (extFs : ExtFs) (st : Generation.RunState)
    (saved : List (String × List Nat))
    (hfresh : ∀ d ∈ st.fs.dirs, d.name ≠ encodeUuid st.ctr) :
    ∃ d3, runFinalFs gen spec extFs st saved =
        ⟨st.fs.dirs ++ [d3], st.fs.loose⟩ ∧
      d3.name = encodeUuid st.ctr ∧
      History.loadEntry d3 = some (runEntryDone gen spec st saved) := by
  obtain ⟨d2, heq2, hname2⟩ := runPreFs_shape spec extFs st hfresh
  unfold runFinalFs
  rw [heq2]
  obtain ⟨dw, heqw, hnamew⟩ := foldl_write_shape (encodeUuid st.ctr) saved
    st.fs.dirs d2 st.fs.loose hfresh hname2
  rw [heqw]
  unfold History.Entry.save
  have hid : (runEntryDone gen spec st saved).id = encodeUuid st.ctr := rfl
  have hmk : HistoryFs.mkdirEntry ⟨st.fs.dirs ++ [dw], st.fs.loose⟩
      (runEntryDone gen spec st saved).id =
      ⟨st.fs.dirs ++ [dw], st.fs.loose⟩ := by
    apply mkdirEntry_of_isSome
    rw [hid, getDir_append_fresh st.fs.dirs dw st.fs.loose _ hfresh hnamew]
    rfl
  rw [hmk]
  have hw : HistoryFs.writeEntryFile ⟨st.fs.dirs ++ [dw], st.fs.loose⟩
      (runEntryDone gen spec st saved).id History.metaFile
      (.yamlDoc (runEntryDone gen spec st saved).marshal) =
      ⟨st.fs.dirs ++ [{ dw with files := (setAssoc dw.files History.metaFile (.yamlDoc (runEntryDone gen spec st saved).marshal)) }], st.fs.loose⟩ := by
    unfold HistoryFs.writeEntryFile
    simp only [HistoryFs.mk.injEq, and_true]
    rw [hid]
    exact updFirstDir_append_fresh st.fs.dirs _ _ dw hfresh hnamew
  rw [hw]
  refine ⟨_, rfl, hnamew, ?_⟩
  unfold History.loadEntry
  simp only [lookupAssoc_setAssoc_self]
  exact History.Entry.unmarshal_marshal_entry _

/-- Inversion: a successful `Service.Run` went through validation, a
successful generator call and a successful image save. -/
theorem serviceRun_ok_inv (gen : Generation.Generator) (spec : Spec)
    (extFs : ExtFs) (st : Generation.RunState) (r : Generation.Result)
    (st' : Generation.RunState) (calls : List Gemini.Params)
    (h : Generation.serviceRun gen spec extFs st = (.ok r, st', calls)) :
    ∃ saved,
      r = { entryID := encodeUuid st.ctr,
            outputImages := saved.map (fun nv => nv.1) } ∧
      st' = { st with ctr := st.ctr + 2, fs := runFinalFs gen spec extFs st saved } ∧
      calls = [runParams spec] := by
  rcases hval : validateSpec extFs spec with _ | e
  · rcases herr : (gen (runParams spec)).error with _ | msg
    · rcases hsv : Gemini.saveImages (gen (runParams spec)).response
          (encodeUuid (st.ctr + 1)) with msg2 | saved
      · rw [serviceRun_saveErr_eq gen spec extFs st msg2 hval herr hsv] at h
        exact absurd h (by simp)
      · rw [serviceRun_ok_eq gen spec extFs st saved hval herr hsv] at h
        simp only [Prod.mk.injEq, Except.ok.injEq] at h
        exact ⟨saved, h.1.symm, h.2.1.symm, h.2.2.symm⟩
    · rw [serviceRun_err_eq gen spec extFs st msg hval herr] at h
      exact absurd h (by simp)
  · have hv : Generation.serviceRun gen spec extFs st =
        (.error (.validation e), st, []) := by
      unfold Generation.serviceRun
      rw [hval]
    rw [hv] at h
    exact absurd h (by simp)

/-- One successful run extends the ledger by exactly one entry, named by
the counter. -/
theorem runStep_ledger (gen : Generation.Generator) (spec : Spec)
    (extFs : ExtFs) (st : Generation.RunState) (r : Generation.Result)
    (st' : Generation.RunState) (calls : List Gemini.Params)
    (hld : FsLedger st.fs (encodeUuid st.ctr)) (hctr : st.ctr + 2 < 2 ^ 128)
    (h : Generation.serviceRun gen spec extFs st = (.ok r, st', calls)) :
    FsLedger st'.fs (encodeUuid st'.ctr) ∧ st'.ctr = st.ctr + 2 ∧
    st'.fs.dirs.map (fun d => d.name) =
      st.fs.dirs.map (fun d => d.name) ++ [encodeUuid st.ctr] ∧
    r.entryID = encodeUuid st.ctr := by
  have hfresh : ∀ d ∈ st.fs.dirs, d.name ≠ encodeUuid st.ctr :=
    fun d hd => strLt_ne ((hld.1 d hd).2)
  obtain ⟨saved, hr, hst, hcalls⟩ :=
    serviceRun_ok_inv gen spec extFs st r st' calls h
  obtain ⟨d3, hfs, hname3, hload3⟩ :=
    runFinalFs_shape gen spec extFs st saved hfresh
  subst hr hst
  rw [hfs]
  have hbump : strLt (encodeUuid st.ctr) (encodeUuid (st.ctr + 2)) = true :=
    encodeUuid_lt st.ctr (st.ctr + 2) (by omega) hctr
  have hgood3 : DirGood d3 := by
    refine ⟨by rw [hname3]; exact validUuid_encodeUuid st.ctr, ?_, ?_⟩
    · rw [loadEntryD, hload3]
      rfl
    · rw [loadEntryD, hload3]
      simp only [Option.getD_some]
      rw [hname3]
      rfl
  refine ⟨⟨?_, ?_⟩, rfl, by simp [hname3], rfl⟩
  · intro d hd
    rcases List.mem_append.mp hd with hdl | hdr
    · obtain ⟨hg, hlt⟩ := hld.1 d hdl
      exact ⟨hg, strLt_trans hlt hbump⟩
    · have hde : d = d3 := by simpa using hdr
      subst hde
      rw [hname3]
      exact ⟨hgood3, hbump⟩
  · rw [List.pairwise_append]
    refine ⟨hld.2, by simp, ?_⟩
    intro a ha b hb
    have hbe : b = d3 := by simpa using hb
    subst hbe
    rw [hname3]
    exact (hld.1 a ha).2

/-- The entry ID reported by a run outcome (empty for failures). -/
def okId : Except Generation.SvcError Generation.Result → String
  | .ok v => v.entryID
  | .error _ => ""

theorem runMany_ledger (extFs : ExtFs) :
    ∀ (steps : List (Generation.Generator × Spec))
      (st : Generation.RunState),
    FsLedger st.fs (encodeUuid st.ctr) →
    st.ctr + 2 * steps.length < 2 ^ 128 →
    (∀ res ∈ (Generation.runMany extFs steps st).2, ∃ v, res = .ok v) →
    FsLedger (Generation.runMany extFs steps st).1.fs
        (encodeUuid (Generation.runMany extFs steps st).1.ctr) ∧
    (Generation.runMany extFs steps st).1.fs.dirs.map (fun d => d.name) =
      st.fs.dirs.map (fun d => d.name) ++
        (Generation.runMany extFs steps st).2.map okId ∧
    (Generation.runMany extFs steps st).2.length = steps.length := by
  intro steps
  induction steps with
  | nil =>
    intro st hld hctr hok
    exact ⟨hld, by simp [Generation.runMany], by simp [Generation.runMany]⟩
  | cons gs rest ih =>
    intro st hld hctr hok
    have hstep : Generation.runMany extFs (gs :: rest) st =
        ((Generation.runMany extFs rest
            (Generation.serviceRun gs.1 gs.2 extFs st).2.1).1,
         (Generation.serviceRun gs.1 gs.2 extFs st).1 ::
          (Generation.runMany extFs rest
            (Generation.serviceRun gs.1 gs.2 extFs st).2.1).2) := by
      rw [Generation.runMany]
    rw [hstep] at hok ⊢
    obtain ⟨v, hv⟩ := hok (Generation.serviceRun gs.1 gs.2 extFs st).1
      (by simp)
    have hrun : Generation.serviceRun gs.1 gs.2 extFs st =
        (.ok v, (Generation.serviceRun gs.1 gs.2 extFs st).2.1,
         (Generation.serviceRun gs.1 gs.2 extFs st).2.2) := by
      rw [← hv]
    obtain ⟨hld2, hc2, hnames2, hid2⟩ := runStep_ledger gs.1 gs.2 extFs st v
      (Generation.serviceRun gs.1 gs.2 extFs st).2.1
      (Generation.serviceRun gs.1 gs.2 extFs st).2.2 hld (by simp at hctr; omega)
      hrun
    have hbound2 : (Generation.serviceRun gs.1 gs.2 extFs st).2.1.ctr +
        2 * rest.length < 2 ^ 128 := by
      rw [hc2]
      simp at hctr
      omega
    have hokrest : ∀ res ∈ (Generation.runMany extFs rest
        (Generation.serviceRun gs.1 gs.2 extFs st).2.1).2, ∃ w, res = .ok w := by
      intro res hres
      exact hok res (by simp [hres])
    obtain ⟨hldF, hnamesF, hlenF⟩ :=
      ih (Generation.serviceRun gs.1 gs.2 extFs st).2.1 hld2 hbound2 hokrest
    refine ⟨hldF, ?_, by simpa using hlenF⟩
    simp only [List.map_cons]
    rw [hnamesF, hnames2, hv]
    rw [okId]
    rw [hid2]
    simp

/-- C3: two IDs generated in sequence by `NewEntry` in the same process
compare strictly increasing as strings, and for any sequence of N
successful `Run` calls from an empty history, `ListEntries` returns the N
entries in call order with strictly increasing IDs. -/
theorem c3_chronological_ids :
    (∀ (ctr : Nat) (now : String), ctr + 1 < 2 ^ 128 →
      strLt (History.newEntry ctr now).1.id
        (History.newEntry (History.newEntry ctr now).2 now).1.id = true) ∧
    (∀ (extFs : ExtFs) (steps : List (Generation.Generator × Spec))
        (st0 : Generation.RunState),
      st0.fs.dirs = [] →
      st0.ctr + 2 * steps.length < 2 ^ 128 →
      (∀ res ∈ (Generation.runMany extFs steps st0).2, ∃ v, res = .ok v) →
      (History.listEntries (Generation.runMany extFs steps st0).1.fs).map
          (fun e => e.id) =
        (Generation.runMany extFs steps st0).2.map okId ∧
      List.Pairwise (fun a b => strLt a b = true)
        ((History.listEntries (Generation.runMany extFs steps st0).1.fs).map
          (fun e => e.id)) ∧
      (History.listEntries (Generation.runMany extFs steps st0).1.fs).length
        = steps.length) := by
  constructor
  · intro ctr now hctr
    show strLt (encodeUuid ctr) (encodeUuid (ctr + 1)) = true
    exact encodeUuid_lt ctr (ctr + 1) (by omega) hctr
  · intro extFs steps st0 hempty hbound hok
    have hld0 : FsLedger st0.fs (encodeUuid st0.ctr) := by
      constructor
      · intro d hd
        rw [hempty] at hd
        exact absurd hd (by simp)
      · rw [hempty]
        exact List.Pairwise.nil
    obtain ⟨hldF, hnames, hlen⟩ := runMany_ledger extFs steps st0 hld0 hbound hok
    obtain ⟨hlist, hids⟩ :=
      listEntries_ledger (Generation.runMany extFs steps st0).1.fs _ hldF
    have hids2 : (History.listEntries
        (Generation.runMany extFs steps st0).1.fs).map (fun e => e.id) =
        (Generation.runMany extFs steps st0).2.map okId := by
      rw [hids, hnames, hempty]
      simp
    refine ⟨hids2, ?_, ?_⟩
    · rw [hids]
      exact List.pairwise_map.mpr hldF.2
    · have h1 := congrArg List.length hids2
      simp only [List.length_map] at h1
      rw [h1, hlen]

/-- Witness for C3: consecutive IDs at counter 0, and one successful
concrete run from an empty history listing exactly one entry. -/
theorem c3_chronological_ids_witness :
    strLt (History.newEntry 0 "t").1.id
      (History.newEntry (History.newEntry 0 "t").2 "t").1.id = true ∧
    (History.listEntries
        (Generation.runMany demoExtFs [(demoOkGen, demoSpec)] demoSt0).1.fs).length
      = 1 :=
  ⟨c3_chronological_ids.1 0 "t" (by norm_num),
   (c3_chronological_ids.2 demoExtFs [(demoOkGen, demoSpec)] demoSt0 rfl
     (by show (0 : Nat) + 2 * 1 < 2 ^ 128; norm_num)
     (fun res hres => by
       have hr : (Generation.runMany demoExtFs [(demoOkGen, demoSpec)]
           demoSt0).2 = [(Generation.serviceRun demoOkGen demoSpec demoExtFs
             demoSt0).1] := rfl
       rw [hr] at hres
       have hres2 := List.mem_singleton.mp hres
       exact ⟨{ entryID := encodeUuid 0,
                outputImages := [Gemini.outputFileName (encodeUuid 1) 0
                  "image/png", Gemini.outputFileName (encodeUuid 1) 1
                  "image/png"] }, by rw [hres2]; rfl⟩)).2.2⟩

/-! ### The two-image scenario (C7) -/

theorem setAssoc_fresh {α : Type} (l : List (String × α)) (k : String) (v : α)
    (h : ∀ kv ∈ l, kv.1 ≠ k) : setAssoc l k v = l ++ [(k, v)] := by
  induction l with
  | nil => rfl
  | cons kv rest ih =>
    have hk : kv.1 ≠ k := h kv (by simp)
    obtain ⟨k1, v1⟩ := kv
    simp only [setAssoc, if_neg hk, List.cons_append]
    rw [ih (fun x hx => h x (by simp [hx]))]

theorem getDir_foldl_write (items : List (String × List Nat)) :
    ∀ (fs : HistoryFs) (name : String),
    ((items.foldl
        (fun (acc : HistoryFs) nv => acc.writeEntryFile name nv.1 (.bin nv.2))
        fs).getDir name) =
      (fs.getDir name).map
        (fun d => items.foldl
          (fun d nv => { d with files := (setAssoc d.files nv.1 (.bin nv.2)) }) d) := by
  induction items with
  | nil => intro fs name; simp
  | cons nv rest ih =>
    intro fs name
    simp only [List.foldl_cons]
    rw [ih, getDir_writeEntryFile_self, Option.map_map]
    rfl

/-- C7 (amended): with one existing input image and a generator returning
two images, from an empty history `Run` succeeds with exactly 2
OutputImages, `ListEntries` has length 1, and the entry directory contains
exactly `prompt.txt`, the copied input image, the 2 output files and
`meta.yaml` — and no other files. -/
theorem c7_two_image_scenario_amended
    (gen : Generation.Generator) (spec : Spec) (extFs : ExtFs)
    (st : Generation.RunState) (p : String) (data : List Nat)
    (pt1 pt2 : Gemini.ImgPart) (n1 n2 : String)
    (hval : validateSpec extFs spec = none)
    (hpaths : spec.imagePaths = [p])
    (hext : extLookup extFs p = some data)
    (hresp : (gen (runParams spec)).error = none)
    (hresp2 : (gen (runParams spec)).response = some [pt1, pt2])
    (hd1 : pt1.data ≠ []) (hd2 : pt2.data ≠ [])
    (hn1 : n1 = Gemini.outputFileName (encodeUuid (st.ctr + 1)) 0 pt1.mimeType)
    (hn2 : n2 = Gemini.outputFileName (encodeUuid (st.ctr + 1)) 1 pt2.mimeType)
    (hempty : st.fs.dirs = [])
    (hnodup : ([History.PromptFile, filepathBase p, n1, n2,
      History.metaFile] : List String).Pairwise (fun a b => a ≠ b)) :
    (Generation.serviceRun gen spec extFs st).1 =
      .ok { entryID := encodeUuid st.ctr, outputImages := [n1, n2] } ∧
    (History.listEntries
      (Generation.serviceRun gen spec extFs st).2.1.fs).length = 1 ∧
    ((Generation.serviceRun gen spec extFs st).2.1.fs.getDir
        (encodeUuid st.ctr)).map (fun d => d.files.map Prod.fst) =
      some [History.PromptFile, filepathBase p, n1, n2, History.metaFile] := by
  have hsv : Gemini.saveImages (gen (runParams spec)).response
      (encodeUuid (st.ctr + 1)) = .ok [(n1, pt1.data), (n2, pt2.data)] := by
    rw [hresp2, hn1, hn2]
    simp [Gemini.saveImages, Gemini.collectImages, hd1, hd2]
  have hok := serviceRun_ok_eq gen spec extFs st [(n1, pt1.data), (n2, pt2.data)]
    hval hresp hsv
  have hfr : ∀ d ∈ st.fs.dirs, d.name ≠ encodeUuid st.ctr := by
    rw [hempty]
    simp
  refine ⟨by simp [hok], ?_, ?_⟩
  · simp only [hok]
    obtain ⟨d3, hfs, hname3, hload3⟩ :=
      runFinalFs_shape gen spec extFs st [(n1, pt1.data), (n2, pt2.data)] hfr
    have hval3 : validUuid d3.name = true := by
      rw [hname3]
      exact validUuid_encodeUuid st.ctr
    simp [History.listEntries, hfs, hempty, hval3, hload3,
      List.insertionSort, List.orderedInsert]
  · simp only [hok]
    show ((runFinalFs gen spec extFs st
      [(n1, pt1.data), (n2, pt2.data)]).getDir (encodeUuid st.ctr)).map
        (fun d => d.files.map Prod.fst) = _
    have hgd0 : st.fs.getDir (encodeUuid st.ctr) = none := by
      unfold HistoryFs.getDir
      rw [hempty]
      rfl
    unfold runFinalFs History.Entry.save
    rw [show (runEntryDone gen spec st
        [(n1, pt1.data), (n2, pt2.data)]).id = encodeUuid st.ctr from rfl]
    rw [getDir_writeEntryFile_self, getDir_mkdirEntry_self,
      getDir_foldl_write]
    unfold runPreFs History.Entry.saveInputImages History.Entry.savePrompt
    rw [show (runEntryRec spec st).id = encodeUuid st.ctr from rfl, hpaths]
    simp only [List.foldl_cons, List.foldl_nil, hext]
    rw [getDir_writeEntryFile_self, getDir_writeEntryFile_self,
      getDir_mkdirEntry_self, hgd0]
    simp only [Option.getD_none, Option.map_some', List.foldl_cons,
      List.foldl_nil, emptyEntryDir, Option.getD_some]
    simp only [List.pairwise_cons, List.mem_cons] at hnodup
    obtain ⟨hP, hB, hN1, hN2, _⟩ := hnodup
    have h01 : History.PromptFile ≠ filepathBase p := hP _ (by simp)
    have h02 : History.PromptFile ≠ n1 := hP _ (by simp)
    have h03 : History.PromptFile ≠ n2 := hP _ (by simp)
    have h04 : History.PromptFile ≠ History.metaFile := hP _ (by simp)
    have h12 : filepathBase p ≠ n1 := hB _ (by simp)
    have h13 : filepathBase p ≠ n2 := hB _ (by simp)
    have h14 : filepathBase p ≠ History.metaFile := hB _ (by simp)
    have h23 : n1 ≠ n2 := hN1 _ (by simp)
    have h24 : n1 ≠ History.metaFile := hN1 _ (by simp)
    have h34 : n2 ≠ History.metaFile := hN2 _ (by simp)
    have hset1 : setAssoc ([] : List (String × FileData)) History.PromptFile
        (.text spec.prompt) = [(History.PromptFile, .text spec.prompt)] := rfl
    rw [hset1]
    rw [setAssoc_fresh _ (filepathBase p) _ (by
      intro kv hkv
      simp only [List.mem_singleton] at hkv
      subst hkv
      exact h01)]
    rw [setAssoc_fresh _ n1 _ (by
      intro kv hkv
      simp only [List.mem_append, List.mem_singleton] at hkv
      rcases hkv with hkv | hkv <;> subst hkv
      · exact h02
      · exact h12)]
    rw [setAssoc_fresh _ n2 _ (by
      intro kv hkv
      simp only [List.mem_append, List.mem_singleton] at hkv
      rcases hkv with (hkv | hkv) | hkv <;> subst hkv
      · exact h03
      · exact h13
      · exact h23)]
    rw [setAssoc_fresh _ History.metaFile _ (by
      intro kv hkv
      simp only [List.mem_append, List.mem_singleton] at hkv
      rcases hkv with ((hkv | hkv) | hkv) | hkv <;> subst hkv
      · exact h04
      · exact h14
      · exact h24
      · exact h34)]
    simp

/-- C7 counterexample: in the claim's concrete scenario (prompt "a red
ball", one existing input image, generator returning 2 images) `Run`
does return 2 OutputImages and `ListEntries` has length 1, but the entry
directory also holds the copied input image `ball.png`, which is none of
the 2 output files, `meta.yaml` or `prompt.txt` — so "no other files"
fails. -/
theorem c7_two_image_scenario_counterexample :
    (Generation.serviceRun demoOkGen demoSpec demoExtFs demoSt0).1 =
      .ok { entryID := encodeUuid 0,
            outputImages :=
              [Gemini.outputFileName (encodeUuid 1) 0 "image/png",
               Gemini.outputFileName (encodeUuid 1) 1 "image/png"] } ∧
    (History.listEntries
      (Generation.serviceRun demoOkGen demoSpec demoExtFs
        demoSt0).2.1.fs).length = 1 ∧
    ((Generation.serviceRun demoOkGen demoSpec demoExtFs
        demoSt0).2.1.fs.getDir (encodeUuid 0)).map
      (fun d => d.files.map Prod.fst) =
      some [History.PromptFile, "ball.png",
            Gemini.outputFileName (encodeUuid 1) 0 "image/png",
            Gemini.outputFileName (encodeUuid 1) 1 "image/png",
            History.metaFile] ∧
    "ball.png" ∉
      [Gemini.outputFileName (encodeUuid 1) 0 "image/png",
       Gemini.outputFileName (encodeUuid 1) 1 "image/png",
       History.metaFile, History.PromptFile] :=
  ⟨rfl, rfl, rfl, by decide⟩

/-- Witness for the amended C7 at the concrete scenario. -/
theorem c7_two_image_scenario_amended_witness :
    (Generation.serviceRun demoOkGen demoSpec demoExtFs demoSt0).1 =
      .ok { entryID := encodeUuid 0,
            outputImages :=
              [Gemini.outputFileName (encodeUuid 1) 0 "image/png",
               Gemini.outputFileName (encodeUuid 1) 1 "image/png"] } ∧
    (History.listEntries
      (Generation.serviceRun demoOkGen demoSpec demoExtFs
        demoSt0).2.1.fs).length = 1 ∧
    ((Generation.serviceRun demoOkGen demoSpec demoExtFs
        demoSt0).2.1.fs.getDir (encodeUuid 0)).map
      (fun d => d.files.map Prod.fst) =
      some [History.PromptFile, filepathBase "inputs/ball.png",
            Gemini.outputFileName (encodeUuid 1) 0 "image/png",
            Gemini.outputFileName (encodeUuid 1) 1 "image/png",
            History.metaFile] :=
  c7_two_image_scenario_amended demoOkGen demoSpec demoExtFs demoSt0
    "inputs/ball.png" [137, 80]
    ⟨"image/png", [9]⟩ ⟨"image/png", [8]⟩
    (Gemini.outputFileName (encodeUuid 1) 0 "image/png")
    (Gemini.outputFileName (encodeUuid 1) 1 "image/png")
    rfl rfl rfl rfl rfl (by decide) (by decide) rfl rfl rfl (by decide)

end Banago
